import Mathlib

set_option synthInstance.maxSize 4000

/-!
# Verification of the resource-configuration engine (pkg/crmanager/resourceConfig.go)

A shallow embedding, in Lean 4, of the resource-configuration synthesis and
reconciliation engine of the k8s-bigip-ctlr repository, together with theorems
settling the specification claims about it.

Modelling conventions, used throughout:

* Go strings are Lean `String`s; Go string comparison (`<`, `>=`) is the
  lexicographic order on `String`.
* Go maps are embedded as association lists (`List (key × value)`): lookup
  returns the value of the first matching key, insertion updates the existing
  entry in place or appends a new one, deletion removes the entry.  Iteration
  over a Go map is iteration over the association list; Go leaves the
  iteration order unspecified, the list fixes one.
* Go slices are Lean lists.  `goCopy` below embeds the builtin `copy`.
* Go pointers to `action` values (`*action`) are embedded as records carrying
  a `ptr : Nat` field modelling the pointer identity: Go `==` on two `*action`
  values is `ptr` equality, while `reflect.DeepEqual` (which dereferences
  pointers) compares the remaining fields.
* The fields of `action` and `condition` other than `Name` are declared in a
  file of the repository that is not part of the sources at hand; the engine
  only ever compares them structurally (via `reflect.DeepEqual`), so they are
  modelled from the spec as a single opaque `data : String` field
  ("explicit field-by-field structural equality", spec section 9).
-/

namespace CRM

/-! ## Generic helpers: Go builtins and association lists -/

/-- Embedding of Go's builtin `copy(dst, src)`: the first
`min dst.length src.length` elements of `dst` are replaced by those of `src`,
the rest of `dst` is unchanged; the result is the new contents of `dst`. -/
def goCopy {α : Type} (dst src : List α) : List α :=
  src.take (min dst.length src.length) ++ dst.drop (min dst.length src.length)

/-- Embedding of Go's `sort.Search(n, f)` (binary search for the least index
in `[0, n)` at which `f` is true, assuming `f` is false-then-true):

```go
i, j := 0, n
for i < j { h := int(uint(i+j) >> 1); if !f(h) { i = h + 1 } else { j = h } }
return i
```

The loop runs at most `j - i` times, so it is embedded with that much fuel
(structural recursion, so that proofs can evaluate it). -/
def goSearchAux (f : Nat → Bool) : Nat → Nat → Nat → Nat
  | 0, i, _ => i
  | fuel + 1, i, j =>
    if i < j then
      let m := (i + j) / 2
      if f m then goSearchAux f fuel i m else goSearchAux f fuel (m + 1) j
    else i

/-- `sort.Search(n, f)`. -/
def goSearch (f : Nat → Bool) (n : Nat) : Nat := goSearchAux f n 0 n

/-- Association-list lookup: embeds a Go map read `m[k]` (with `ok`). -/
def alookup {κ β : Type} [DecidableEq κ] : List (κ × β) → κ → Option β
  | [], _ => none
  | (k, v) :: rest, key => if k = key then some v else alookup rest key

/-- Association-list insertion: embeds a Go map write `m[k] = v`. -/
def aset {κ β : Type} [DecidableEq κ] : List (κ × β) → κ → β → List (κ × β)
  | [], key, v => [(key, v)]
  | (k, w) :: rest, key, v =>
    if k = key then (k, v) :: rest else (k, w) :: aset rest key v

/-- Association-list deletion: embeds Go's `delete(m, k)`. -/
def aerase {κ β : Type} [DecidableEq κ] : List (κ × β) → κ → List (κ × β)
  | [], _ => []
  | (k, w) :: rest, key => if k = key then rest else (k, w) :: aerase rest key

/-- Embedding of Go's `strings.Contains` over the character lists. -/
def strContains (s sub : String) : Bool :=
  let rec go : List Char → Bool
    | [] => sub.data.isPrefixOf []
    | c :: cs => sub.data.isPrefixOf (c :: cs) || go cs
  go s.data

/-- The scanning loop of Go's `strings.Split` over character lists: cut at
every occurrence of the (nonempty) separator.  `fuel` bounds the loop (one
unit per consumed character); callers pass `s.length + 1`, which is enough. -/
def goSplitAux (sep : List Char) : Nat → List Char → List Char → List (List Char)
  | 0, acc, rest => [acc.reverse ++ rest]
  | _ + 1, acc, [] => [acc.reverse]
  | fuel + 1, acc, c :: cs =>
    if sep.isPrefixOf (c :: cs) then
      acc.reverse :: goSplitAux sep fuel [] (List.drop sep.length (c :: cs))
    else
      goSplitAux sep fuel (c :: acc) cs

/-- Embedding of Go's `strings.Split(s, sep)` for a nonempty separator. -/
def goSplit (s sep : String) : List String :=
  (goSplitAux sep.data (s.data.length + 1) [] s.data).map (fun l => ⟨l⟩)

/-- Embedding of Go's `strings.HasSuffix`. -/
def strEndsWith (s suffixStr : String) : Bool :=
  suffixStr.data.isSuffixOf s.data

/-- Lexicographic (byte-order) comparison of character lists: the order Go
uses on strings. -/
def charListLt : List Char → List Char → Bool
  | [], [] => false
  | [], _ :: _ => true
  | _ :: _, [] => false
  | c :: cs, d :: ds =>
    if c.toNat < d.toNat then true
    else if d.toNat < c.toNat then false
    else charListLt cs ds

/-- Go's `<` on strings. -/
def strLt (a b : String) : Bool := charListLt a.data b.data

/-- Go's `<=` on strings. -/
def strLe (a b : String) : Bool := !(strLt b a)

/-- Insertion into a weakly-sorted list of strings (helper for `sortStrings`). -/
def insertStr (x : String) : List String → List String
  | [] => [x]
  | y :: ys => if strLe x y then x :: y :: ys else y :: insertStr x ys

/-- Embedding of Go's `sort.Strings` (the engine only depends on the result
being sorted, which insertion sort delivers). -/
def sortStrings : List String → List String
  | [] => []
  | x :: xs => insertStr x (sortStrings xs)

/-! ## Data model

The record types mirror the struct types used by `resourceConfig.go`
(`Rule`, `Policy`, `Virtual`, `ResourceConfig`, ...).  Their declarations live
in a sibling file of the repository; the fields below are the ones this file
reads or writes, plus the opaque `data` payloads described in the header. -/

/-- Go `*action`: `ptr` models the pointer identity, `name` the `Name` field,
`data` all remaining fields (compared only via `reflect.DeepEqual`). -/
structure action where
  ptr : Nat
  name : String
  data : String
  deriving DecidableEq, Inhabited, Repr

/-- Go `*condition`: `name` is the `Name` field, `data` all remaining fields
(including `Values`), compared only via `reflect.DeepEqual`. -/
structure condition where
  name : String
  data : String
  deriving DecidableEq, Inhabited, Repr

/-- A policy rule: ordered `Conditions`/`Actions`, an evaluation `Ordinal`,
a `Name` and a `FullURI` identity key. -/
structure Rule where
  Name : String
  FullURI : String
  Ordinal : Nat
  Conditions : List condition
  Actions : List action
  deriving DecidableEq, Inhabited, Repr

/-- A name/partition reference (Go `nameRef`). -/
structure nameRef where
  Name : String
  Partition : String
  deriving DecidableEq, Inhabited, Repr

/-- A policy: named, partitioned, with a `Controls` tag set and ordered rules. -/
structure Policy where
  Name : String
  Partition : String
  Controls : List String
  Requires : List String
  Rules : List Rule
  deriving DecidableEq, Inhabited, Repr

/-- A TLS/protocol profile reference attached to a virtual. -/
structure ProfileRef where
  Name : String
  Partition : String
  Context : String
  Namespace : String
  deriving DecidableEq, Inhabited, Repr

/-- Go `virtualAddress`. -/
structure virtualAddress where
  BindAddr : String
  Port : Int
  deriving DecidableEq, Inhabited, Repr

/-- Pool members (populated by an external collaborator; opaque here). -/
structure Member where
  data : String
  deriving DecidableEq, Inhabited, Repr

/-- A backend pool. -/
structure Pool where
  Name : String
  Partition : String
  ServiceName : String
  ServicePort : Int
  NodeMemberLabel : String
  Members : List Member
  deriving DecidableEq, Inhabited, Repr

/-- The virtual server: bind address, destination, profiles, policy refs. -/
structure Virtual where
  Name : String
  Partition : String
  Enabled : Bool
  VirtualAddress : Option virtualAddress
  Destination : String
  Profiles : List ProfileRef
  IRules : List String
  Policies : List nameRef
  deriving DecidableEq, Inhabited, Repr

/-- Resource-config metadata. -/
structure MetaData where
  Active : Bool
  rscName : String
  ResourceType : String
  deriving DecidableEq, Inhabited, Repr

/-- One synthesized virtual-server configuration. -/
structure ResourceConfig where
  MetaData : MetaData
  Virtual : Virtual
  Pools : List Pool
  Policies : List Policy
  deriving DecidableEq, Inhabited, Repr

/-- Go `mergedRuleEntry`: bookkeeping for one merged rule.  `MergedActions`
is a Go map (nil ⟺ the empty list here: `MergeRules` never stores an entry
with an allocated-but-empty map). -/
structure mergedRuleEntry where
  RuleName : String
  OtherRuleNames : List String
  MergedActions : List (String × List action)
  OriginalRule : Rule
  deriving DecidableEq, Inhabited, Repr

/-- `mergedRulesMap`: resource-config name → rule name → entry. -/
abbrev MRM := List (String × List (String × mergedRuleEntry))

/-- Go `ObjectDependency`. -/
structure ObjectDependency where
  Kind : String
  Namespace : String
  Name : String
  Service : String
  deriving DecidableEq, Inhabited, Repr

/-- `const RuleDep = "Rule"`. -/
def RuleDep : String := "Rule"

/-! ## Basic ResourceConfig operations -/

/-- `(cfg *ResourceConfig) GetName()`: the virtual's name. -/
def ResourceConfig.GetName (cfg : ResourceConfig) : String := cfg.Virtual.Name

/-- `(rc *ResourceConfig) FindPolicy(controlType)`: the first policy whose
`Controls` contains `controlType` (Go returns `&pol`, a pointer to a copy of
the loop variable; the heap-level `HP` namespace below models the aliasing
consequences of that copy). -/
def ResourceConfig.FindPolicy (rc : ResourceConfig) (controlType : String) :
    Option Policy :=
  rc.Policies.find? (fun pol => pol.Controls.any (fun cType => cType = controlType))

/-- The `rc.Policies` update of `SetPolicy`: replace the first policy with the
same `Name` and `Partition`, else append. -/
def setPolicyList : List Policy → Policy → List Policy
  | [], policy => [policy]
  | pol :: rest, policy =>
    if pol.Name = policy.Name ∧ pol.Partition = policy.Partition then
      policy :: rest
    else
      pol :: setPolicyList rest policy

/-- `(rc *ResourceConfig) SetPolicy(policy)`: record the name reference on the
virtual (if absent) and replace-or-append in `rc.Policies`. -/
def ResourceConfig.SetPolicy (rc : ResourceConfig) (policy : Policy) : ResourceConfig :=
  let toFind : nameRef := { Name := policy.Name, Partition := policy.Partition }
  let vPolicies :=
    if rc.Virtual.Policies.any (fun polName => polName = toFind) then
      rc.Virtual.Policies
    else
      rc.Virtual.Policies ++ [toFind]
  { rc with
    Virtual := { rc.Virtual with Policies := vPolicies }
    Policies := setPolicyList rc.Policies policy }

/-- Remove the first element equal to `x` (Go loop + `copy`-shift + truncate). -/
def removeFirst {α : Type} [DecidableEq α] (x : α) : List α → List α
  | [] => []
  | y :: ys => if y = x then ys else y :: removeFirst x ys

/-- `(rc *ResourceConfig) RemovePolicy(policy)`: drop the virtual's name
reference, then remove the first matching policy from `rc.Policies`
(Go sets the whole slice to `nil` when it had exactly one element). -/
def ResourceConfig.RemovePolicy (rc : ResourceConfig) (policy : Policy) : ResourceConfig :=
  let toFind : nameRef := { Name := policy.Name, Partition := policy.Partition }
  let vPolicies := removeFirst toFind rc.Virtual.Policies
  let rc := { rc with Virtual := { rc.Virtual with Policies := vPolicies } }
  match rc.Policies.findIdx? (fun pol =>
      pol.Name = toFind.Name ∧ pol.Partition = toFind.Partition) with
  | none => rc
  | some i =>
    if rc.Policies.length = 1 then { rc with Policies := [] }
    else { rc with Policies := rc.Policies.eraseIdx i }

/-- `(pol *Policy) RemoveRuleAt(offset)`: `copy`-shift left from `offset`,
truncate by one (a no-op returning false when `offset` is out of range). -/
def Policy.RemoveRuleAt (pol : Policy) (offset : Nat) : Policy × Bool :=
  if offset ≥ pol.Rules.length then (pol, false)
  else ({ pol with Rules := pol.Rules.eraseIdx offset }, true)

/-- The ordinal-fixing loop of `RemoveRules`:
`for i, rule := range pol.Rules { rule.Ordinal = i }`. -/
def reassignOrdinalsFrom : Nat → List Rule → List Rule
  | _, [] => []
  | i, r :: rs => { r with Ordinal := i } :: reassignOrdinalsFrom (i + 1) rs

/-- `(pol *Policy) RemoveRules(ruleOffsets)`: remove each offset from last to
first, then reassign contiguous ordinals. -/
def Policy.RemoveRules (pol : Policy) (ruleOffsets : List Nat) : Policy × Bool :=
  if ruleOffsets = [] then (pol, false)
  else
    -- for i := len(ruleOffsets) - 1; i >= 0; i--
    let pol := ruleOffsets.reverse.foldl (fun p off => (p.RemoveRuleAt off).1) pol
    ({ pol with Rules := reassignOrdinalsFrom 0 pol.Rules }, true)

/-! ## Naming and address formatting -/

/-- The character replacements of `AS3NameFormatter`'s `strings.NewReplacer`
(all patterns are single characters, so `Replace` is a per-character map). -/
def as3Char (c : Char) : Char :=
  if c = '.' then '_'
  else if c = ':' then '_'
  else if c = '/' then '_'
  else if c = '%' then '.'
  else if c = '-' then '_'
  else if c = '=' then '_'
  else c

/-- `AS3NameFormatter(name)`: sanitize a resource name (all replacer patterns
are single characters, so the replacement is a per-character map). -/
def AS3NameFormatter (name : String) : String := ⟨name.data.map as3Char⟩

/-- `split_ip_with_route_domain(address)`: match `^([^%]*)%(\d+)$` — an
optional `%<decimal route domain>` suffix, with no other `%` in the address. -/
def split_ip_with_route_domain (address : String) : String × String :=
  match goSplit address "%" with
  | [ip, rd] => if rd ≠ "" ∧ rd.data.all Char.isDigit then (ip, rd) else (address, "")
  | _ => (address, "")

/-- An IP address as classified by the `net` collaborator: `To4() != nil`
(IPv4) or not. -/
inductive IPAddr : Type where
  | v4 (a b c d : Nat) : IPAddr
  | v6 (groups : List String) : IPAddr
  deriving DecidableEq, Repr

/-- Decimal digits to a number (Go's `dtoi`). -/
def digitsToNat (l : List Char) : Nat :=
  l.foldl (fun acc c => acc * 10 + (c.toNat - '0'.toNat)) 0

/-- One dotted-decimal IPv4 field: nonempty, all digits, value ≤ 255
(Go's `dtoi`). -/
def ipv4Field (f : String) : Option Nat :=
  if f ≠ "" ∧ f.data.all Char.isDigit ∧ digitsToNat f.data ≤ 255 then
    some (digitsToNat f.data)
  else none

/-- Dotted-decimal IPv4 parsing (the `parseIPv4` path of `net.ParseIP`). -/
def parseIPv4 (s : String) : Option IPAddr :=
  match goSplit s "." with
  | [a, b, c, d] =>
    match ipv4Field a, ipv4Field b, ipv4Field c, ipv4Field d with
    | some a', some b', some c', some d' => some (.v4 a' b' c' d')
    | _, _, _, _ => none
  | _ => none

/-- One IPv6 group: 1–4 hex digits. -/
def hexGroup (f : String) : Bool :=
  f ≠ "" && f.length ≤ 4 && f.data.all (fun c => c.isDigit || ('a' ≤ c && c ≤ 'f') || ('A' ≤ c && c ≤ 'F'))

/-- Modelled from the spec: the IPv6 path of the external `net.ParseIP`
collaborator (the Go standard library, outside this repository).  Accepts the
plain 8-group form and the `::`-abbreviated forms; the claims settled below
never depend on its details, only on the IPv4 path and on parse failure. -/
def parseIPv6Model (s : String) : Option IPAddr :=
  match goSplit s "::" with
  | [whole] =>
    let groups := goSplit whole ":"
    if groups.length = 8 ∧ groups.all hexGroup then some (.v6 groups) else none
  | [l, r] =>
    let lg := if l = "" then [] else goSplit l ":"
    let rg := if r = "" then [] else goSplit r ":"
    if lg.length + rg.length ≤ 7 ∧ lg.all hexGroup ∧ rg.all hexGroup then
      some (.v6 (lg ++ rg))
    else none
  | _ => none

/-- Model of the external `net.ParseIP` collaborator: the first `.` or `:`
encountered selects the IPv4 or IPv6 parser; neither present means failure. -/
def goParseIP (s : String) : Option IPAddr :=
  let rec pick : List Char → Option Char
    | [] => none
    | c :: cs => if c = '.' then some '.' else if c = ':' then some ':' else pick cs
  match pick s.data with
  | some '.' => parseIPv4 s
  | some _ => parseIPv6Model s
  | none => none

/-- Whether `addr.To4() != nil` for a parsed address. -/
def IPAddr.isTo4 : IPAddr → Bool
  | .v4 _ _ _ _ => true
  | .v6 _ => false

/-- `(v *Virtual) SetVirtualAddress(bindAddr, port)`, parametrized by the
IP-parsing collaborator (`net.ParseIP`). -/
def Virtual.SetVirtualAddressWith (v : Virtual) (parseIP : String → Option IPAddr)
    (bindAddr : String) (port : Int) : Virtual :=
  let v := { v with Destination := "" }
  if bindAddr = "" ∧ port = 0 then
    { v with VirtualAddress := none }
  else
    let v := { v with VirtualAddress := some { BindAddr := bindAddr, Port := port } }
    let (ip, rd0) := split_ip_with_route_domain bindAddr
    let rd := if rd0.length > 0 then "%" ++ rd0 else rd0
    match parseIP ip with
    | some addr =>
      let sep := if addr.isTo4 then ":" else "."
      { v with Destination := "/" ++ v.Partition ++ "/" ++ ip ++ rd ++ sep ++ toString port }
    | none => v

/-- `SetVirtualAddress` with the modelled standard-library parser. -/
def Virtual.SetVirtualAddress (v : Virtual) (bindAddr : String) (port : Int) : Virtual :=
  v.SetVirtualAddressWith goParseIP bindAddr port

/-! ## Profile management -/

/-- The `keyFunc` of `AddOrUpdateProfile`: profile at index `i` is ≥ `prof`
in the (partition, name) order (`a >= b` on Go strings is `¬ (a < b)`). -/
def profKeyFunc (profiles : List ProfileRef) (prof : ProfileRef) (i : Nat) : Bool :=
  let p := profiles.getD i default
  strLt prof.Partition p.Partition ||
    (p.Partition = prof.Partition && !(strLt p.Name prof.Name))

/-- The insertion shift shared by `AddOrUpdateProfile` and
`AddOrUpdateRecord`: append a zero value (`append(v.Profiles, ProfileRef{})`),
then `copy(v.Profiles[i+1:], v.Profiles[i:])` to open a gap at `i`. -/
def goInsertShift {α : Type} [Inhabited α] (l : List α) (i : Nat) : List α :=
  let grown := l ++ [default]
  grown.take (i + 1) ++ goCopy (grown.drop (i + 1)) (grown.drop i)

/-- The strict (partition, name) order on profiles (Go string comparison):
the sortedness-and-no-duplicates invariant is `Pairwise` of this. -/
def profLtB (a b : ProfileRef) : Bool :=
  strLt a.Partition b.Partition ||
    (a.Partition = b.Partition && strLt a.Name b.Name)

/-- `(v *Virtual) AddOrUpdateProfile(prof)`: binary-search the sorted
`Profiles`; identical (partition, name, context) is a no-op returning false;
same (partition, name) with different context overwrites in place; otherwise
insert at the search position (append a zero value, `copy`-shift, write). -/
def Virtual.AddOrUpdateProfile (v : Virtual) (prof : ProfileRef) : Virtual × Bool :=
  let profCt := v.Profiles.length
  let i := goSearch (profKeyFunc v.Profiles prof) profCt
  if i < profCt ∧ (v.Profiles.getD i default).Partition = prof.Partition ∧
      (v.Profiles.getD i default).Name = prof.Name then
    if (v.Profiles.getD i default).Context = prof.Context then
      (v, false)
    else
      ({ v with Profiles := v.Profiles.set i prof }, true)
  else
    ({ v with Profiles := (goInsertShift v.Profiles i).set i prof }, true)

/-! ## Dependency tracking -/

/-- One recorded dependency set: dependency → reference count (a Go map). -/
abbrev ObjectDependencies := List (ObjectDependency × Nat)

/-- The whole dependency store: owning object → its dependency set. -/
abbrev ObjectDependencyMap := List (ObjectDependency × ObjectDependencies)

/-- The removed-list accumulation step of `UpdateDependencies`: a dependency
of Kind `"Rule"` is put at the front, others at the back. -/
def removedStep (newDeps : ObjectDependencies) (removed : List ObjectDependency)
    (oldDep : ObjectDependency) : List ObjectDependency :=
  match alookup newDeps oldDep with
  | some _ => removed
  | none =>
    if oldDep.Kind = RuleDep then oldDep :: removed else removed ++ [oldDep]

/-- `(rs *Resources) UpdateDependencies(newKey, newDeps, lookupFunc)`:
returns `(added, removed)` and the updated store (the `lookupFunc` parameter
is unused by this version of the function). -/
def UpdateDependencies (objDeps : ObjectDependencyMap) (newKey : ObjectDependency)
    (newDeps : ObjectDependencies) :
    List ObjectDependency × List ObjectDependency × ObjectDependencyMap :=
  match alookup objDeps newKey with
  | some oldDeps =>
    let removed := oldDeps.foldl (fun acc kv => removedStep newDeps acc kv.1) []
    let added := newDeps.foldl (fun acc kv =>
      match alookup oldDeps kv.1 with
      | some _ => acc
      | none => acc ++ [kv.1]) []
    (added, removed, aset objDeps newKey newDeps)
  | none =>
    let added := newDeps.foldl (fun acc kv => acc ++ [kv.1]) []
    (added, [], aset objDeps newKey newDeps)

/-! ## Data-group flattening -/

/-- One internal data-group record. -/
structure InternalDataGroupRecord where
  Name : String
  Data : String
  deriving DecidableEq, Inhabited, Repr

/-- An internal data group: partition + name + name-sorted records. -/
structure InternalDataGroup where
  Name : String
  Partition : String
  Records : List InternalDataGroupRecord
  deriving DecidableEq, Inhabited, Repr

/-- `type FlattenConflictFunc func(key, oldVal, newVal string) string`. -/
abbrev FlattenConflictFunc := String → String → String → String

/-- `HttpsRedirectDgName`. -/
def HttpsRedirectDgName : String := "https_redirect_dg"

/-- `flattenConflictWarn`: log the mismatch (side effect dropped) and keep the
first value. -/
def flattenConflictWarn : FlattenConflictFunc := fun _key oldVal _newVal => oldVal

/-- The `bytes.Buffer` write-out loop of `flattenConflictConcat`: join with
`|` separators. -/
def joinBar : List String → String
  | [] => ""
  | x :: xs => xs.foldl (fun buf path => buf ++ "|" ++ path) x

/-- The tokenize-into-a-set step of `flattenConflictConcat`: a Go
`map[string]bool` keyed by the tokens keeps one copy of each. -/
def dedupTokens : List String → List String
  | [] => []
  | x :: xs => if xs.any (fun y => y = x) then dedupTokens xs else x :: dedupTokens xs

/-- `flattenConflictConcat`: tokenize both values on `|` into a set, sort for
determinism, and write back out `|`-delimited.  (`dedupTokens` keeps the last
copy of each duplicate; after sorting the result is the token set in order,
whichever copy was kept.) -/
def flattenConflictConcat : FlattenConflictFunc := fun _key oldVal newVal =>
  let paths := dedupTokens (goSplit oldVal "|" ++ goSplit newVal "|")
  joinBar (sortStrings paths)

/-- `groupFlattenFuncMap`: data-group name → conflict function. -/
def groupFlattenFuncMap : List (String × FlattenConflictFunc) :=
  [("ssl_passthrough_servername_dg", flattenConflictWarn),
   ("ssl_reencrypt_servername_dg", flattenConflictWarn),
   ("ssl_edge_servername_dg", flattenConflictWarn),
   ("ssl_reencrypt_serverssl_dg", flattenConflictWarn),
   ("ssl_edge_serverssl_dg", flattenConflictWarn),
   (HttpsRedirectDgName, flattenConflictConcat),
   ("ab_deployment_dg", flattenConflictConcat)]

/-- The `nameKeyFunc` of `AddOrUpdateRecord` (`a >= b` is `¬ (a < b)`). -/
def recKeyFunc (records : List InternalDataGroupRecord) (name : String) (i : Nat) : Bool :=
  !(strLt (records.getD i default).Name name)

/-- `(idg *InternalDataGroup) AddOrUpdateRecord(name, data)`: binary-search
the sorted records; update in place on a data change, insert when absent. -/
def InternalDataGroup.AddOrUpdateRecord (idg : InternalDataGroup)
    (name data : String) : InternalDataGroup × Bool :=
  let n := idg.Records.length
  let i := goSearch (recKeyFunc idg.Records name) n
  if i < n ∧ (idg.Records.getD i default).Name = name then
    if (idg.Records.getD i default).Data ≠ data then
      ({ idg with Records := idg.Records.set i { Name := name, Data := data } }, true)
    else (idg, false)
  else
    ({ idg with
       Records := (goInsertShift idg.Records i).set i { Name := name, Data := data } }, true)

/-- namespace → its data group (a Go map, embedded as an association list in
iteration order). -/
abbrev DataGroupNamespaceMap := List (String × InternalDataGroup)

/-- The per-record step of the flattening loop: first occurrence of a record
name wins unless a later namespace supplies *different* data, in which case the
conflict function selected by the current data-group's name (default:
`flattenConflictWarn`) resolves. -/
def flattenRecordStep (dgName : String) (flatMap : List (String × String))
    (rec : InternalDataGroupRecord) : List (String × String) :=
  match alookup flatMap rec.Name with
  | some item =>
    if item ≠ rec.Data then
      let conflictFunc := (alookup groupFlattenFuncMap dgName).getD flattenConflictWarn
      aset flatMap rec.Name (conflictFunc rec.Name item rec.Data)
    else flatMap
  | none => aset flatMap rec.Name rec.Data

/-- The per-namespace step of the flattening loop: adopt the first non-empty
partition and name, then merge this namespace's records. -/
def flattenNamespaceStep (acc : String × String × List (String × String))
    (dg : InternalDataGroup) : String × String × List (String × String) :=
  let (partition, name, flatMap) := acc
  let partition := if partition = "" then dg.Partition else partition
  let name := if name = "" then dg.Name else name
  (partition, name, dg.Records.foldl (flattenRecordStep dg.Name) flatMap)

/-- The record-merging pass of `FlattenNamespaces` over all namespaces. -/
def flattenFold (dgnm : DataGroupNamespaceMap) : String × String × List (String × String) :=
  dgnm.foldl (fun acc kv => flattenNamespaceStep acc kv.2) ("", "", [])

/-- Specification helper: all data supplied for a record name, in namespace
iteration order (used to state keep-first-value semantics). -/
def recOccurrences (dgnm : DataGroupNamespaceMap) (recName : String) : List String :=
  (dgnm.map (fun kv => kv.2.Records.filterMap
    (fun rec => if rec.Name = recName then some rec.Data else none))).flatten

/-- `(dgnm DataGroupNamespaceMap) FlattenNamespaces()`: no namespaces → nil;
one namespace → its data group, returned as stored (the Go fast path returns
the stored pointer without copying); otherwise merge all records into a fresh
data group via `AddOrUpdateRecord`. -/
def DataGroupNamespaceMap.FlattenNamespaces (dgnm : DataGroupNamespaceMap) :
    Option InternalDataGroup :=
  match dgnm with
  | [] => none
  | [(_, dg)] => some dg
  | _ =>
    let (partition, name, flatMap) := flattenFold dgnm
    let newDg : InternalDataGroup := { Name := name, Partition := partition, Records := [] }
    some (flatMap.foldl (fun dg kv => (dg.AddOrUpdateRecord kv.1 kv.2).1) newDg)

/-! ## The policy rule merge engine

`reflect.DeepEqual` with the `Name` fields temporarily blanked (and restored)
compares every field except `Name`: on the embedded records this is equality
of the `data` payloads. -/

/-- Name-blinded structural equality of conditions. -/
def condBlindEq (c d : condition) : Bool := c.data = d.data

/-- Name-blinded structural equality of (dereferenced) actions. -/
def actBlindEq (a b : action) : Bool := a.data = b.data

/-- The `numMatches` counter of `MergeRules`: over all pairs `(k, l)` of
condition indices, count the name-blinded matches. -/
def condMatchCount (ci cj : List condition) : Nat :=
  (ci.map (fun c => (cj.filter (fun d => condBlindEq c d)).length)).sum

/-- The "Merge only unique actions" loop: walk the mergee's actions; an action
with no name-blinded counterpart among the merger's *current* actions is
appended to the merger, and `MergedActions` is re-`make`d to the singleton map
`{mergeeName ↦ [that action]}` (each unique action discards the previous map,
as in the source). Returns the merger's new actions and the final map. -/
def goMergeActions (mergeeName : String) (mergeeActs mergerActs : List action) :
    List action × List (String × List action) :=
  mergeeActs.foldl
    (fun (acc : List action × List (String × List action)) a =>
      let found := acc.1.any (fun b => actBlindEq a b)
      if found then acc
      else (acc.1 ++ [a], [(mergeeName, [a])]))
    (mergerActs, [])

/-- `strings.Contains(name, "app-root") || strings.Contains(name, "url-rewrite")`. -/
def hasMarker (name : String) : Bool :=
  strContains name "app-root" || strContains name "url-rewrite"

/-- The mutable state of one `MergeRules` pass: the (in-place mutated) rule
slice, the two deleted-index accumulators, and the merged-rules map. -/
structure MergeState where
  rules : List Rule
  iDel : List Nat
  jDel : List Nat
  mrm : MRM
  deriving Repr

/-- The "Process entries to the mergedRulesMap" block: adjust the fresh
merger/mergee entries from any existing entries for this config, then store
both (only when the merger entry recorded merged actions). -/
def processMergedEntries (key : String) (mrm : MRM)
    (mergerE mergeeE : mergedRuleEntry) : MRM :=
  if mergerE.MergedActions.length ≠ 0 then
    let (mergerE, mergeeE, inner0) :=
      match alookup mrm key with
      | some inner =>
        let mergerE :=
          match alookup inner mergerE.RuleName with
          | some entry =>
            let names :=
              if ¬ entry.OtherRuleNames.any (fun v => v = mergerE.OtherRuleNames.headD "") then
                mergerE.OtherRuleNames ++ entry.OtherRuleNames
              else mergerE.OtherRuleNames
            let mas :=
              if entry.MergedActions.length ≠ 0 then
                entry.MergedActions.foldl
                  (fun (m : List (String × List action)) (kv : String × List action) =>
                    aset m kv.1 kv.2)
                  mergerE.MergedActions
              else mergerE.MergedActions
            { mergerE with OtherRuleNames := names, OriginalRule := entry.OriginalRule,
                           MergedActions := mas }
          | none => mergerE
        let mergeeE :=
          match alookup inner mergeeE.RuleName with
          | some entry => { mergeeE with OriginalRule := entry.OriginalRule }
          | none => mergeeE
        (mergerE, mergeeE, inner)
      | none => (mergerE, mergeeE, [])
    aset mrm key (aset (aset inner0 mergerE.RuleName mergerE) mergeeE.RuleName mergeeE)
  else mrm

/-- One `(i, j)` iteration of the pairwise comparison loop of `MergeRules`.
Go saves `rules[i]`/`rules[j]` as `OriginalRule` *pointers*; this embedding
saves their values as of the end of this iteration (the rule objects are not
mutated again except when a saved rule is itself merged into once more in a
multi-way chain among marker-named rules, which the settled claims never
reach). -/
def mergePairStep (key : String) (s : MergeState) (i j : Nat) : MergeState :=
  let ri := s.rules.getD i default
  let rj := s.rules.getD j default
  if strEndsWith rj.Name "-reset" then s
  else if ri.Conditions.length = rj.Conditions.length ∧
      condMatchCount ri.Conditions rj.Conditions = ri.Conditions.length then
    let iM := hasMarker ri.Name
    let jM := hasMarker rj.Name
    -- Merge rule[i] into rule[j]
    if (iM ∧ ¬ jM) ∨ (iM ∧ jM) then
      let (newActs, ma) := goMergeActions ri.Name ri.Actions rj.Actions
      let mergerE : mergedRuleEntry :=
        { RuleName := rj.Name, OtherRuleNames := [ri.Name], MergedActions := ma,
          OriginalRule := { rj with Actions := newActs } }
      let mergeeE : mergedRuleEntry :=
        { RuleName := ri.Name, OtherRuleNames := [rj.Name], MergedActions := [],
          OriginalRule := ri }
      { s with rules := s.rules.set j { rj with Actions := newActs },
               iDel := s.iDel ++ [i],
               mrm := processMergedEntries key s.mrm mergerE mergeeE }
    -- Merge rule[j] into rule[i]
    else if ¬ iM ∧ jM then
      let (newActs, ma) := goMergeActions rj.Name rj.Actions ri.Actions
      let mergerE : mergedRuleEntry :=
        { RuleName := ri.Name, OtherRuleNames := [rj.Name], MergedActions := ma,
          OriginalRule := { ri with Actions := newActs } }
      let mergeeE : mergedRuleEntry :=
        { RuleName := rj.Name, OtherRuleNames := [ri.Name], MergedActions := [],
          OriginalRule := rj }
      { s with rules := s.rules.set i { ri with Actions := newActs },
               jDel := s.jDel ++ [j],
               mrm := processMergedEntries key s.mrm mergerE mergeeE }
    else s
  else s

/-- Insertion into a weakly-sorted list of naturals. -/
def insertNat (x : Nat) : List Nat → List Nat
  | [] => [x]
  | y :: ys => if x ≤ y then x :: y :: ys else y :: insertNat x ys

/-- Embedding of `sort.Ints`. -/
def sortNat : List Nat → List Nat
  | [] => []
  | x :: xs => insertNat x (sortNat xs)

/-- The duplicate-removal loop over the sorted deleted indices (keep the first
occurrence of each value, preserving order). -/
def goUnique (l : List Nat) : List Nat :=
  l.foldl (fun acc x =>
    if acc = [] then [x]
    else if acc.any (fun y => y = x) then acc else acc ++ [x]) []

/-- `append(l[:idx], l[idx+1:]...)` — `none` models the Go panic when `idx`
is out of range. -/
def removeAtInt {α : Type} (l : List α) (idx : Int) : Option (List α) :=
  if 0 ≤ idx ∧ idx < l.length then some (l.eraseIdx idx.toNat) else none

/-- The index-deletion loop shared by `MergeRules` and `UnmergeRule`: remove
the element at each index in turn, decrementing every pending index after each
removal (the source decrements all of them; the consumed ones no longer
matter). -/
def goDeleteIndicesAux {α : Type} : Nat → List α → List Int → Option (List α)
  | _, l, [] => some l
  | 0, _, _ :: _ => none
  | fuel + 1, l, idx :: rest => do
    let l' ← removeAtInt l idx
    goDeleteIndicesAux fuel l' (rest.map (fun x => x - 1))

/-- Entry point with enough fuel (one unit per index; the `0, _ :: _` fuel
case is unreachable). -/
def goDeleteIndices {α : Type} (l : List α) (idxs : List Int) : Option (List α) :=
  goDeleteIndicesAux idxs.length l idxs

/-- `(rc *ResourceConfig) MergeRules(mergedRulesMap)`: pairwise comparison of
the forwarding policy's rules, merging structurally-identical-condition pairs
(direction decided by the app-root/url-rewrite name markers), then deletion of
the absorbed mergees.  `none` models a Go panic (unreachable: the deletion
indices are ascending, distinct and in range). -/
def ResourceConfig.MergeRules (rc : ResourceConfig) (mrm : MRM) :
    Option (ResourceConfig × MRM) :=
  match rc.FindPolicy "forwarding" with
  | none => some (rc, mrm)
  | some policy =>
    let n := policy.Rules.length
    let s0 : MergeState := { rules := policy.Rules, iDel := [], jDel := [], mrm := mrm }
    let s := (List.range n).foldl
      (fun s i =>
        if strEndsWith (s.rules.getD i default).Name "-reset" then s
        else (List.range' (i + 1) (n - (i + 1))).foldl
          (fun s' j => mergePairStep rc.GetName s' i j) s)
      s0
    let deletedRuleIndices := s.iDel ++ s.jDel
    let uniqueDeletedRuleIndices := goUnique (sortNat deletedRuleIndices)
    match goDeleteIndices s.rules (uniqueDeletedRuleIndices.map Int.ofNat) with
    | none => none
    | some finalRules =>
      some (rc.SetPolicy { policy with Rules := finalRules }, s.mrm)

/-! ## Rule unmerging -/

/-- Delete the first rule with the given name (the find-and-`append` loop). -/
def deleteFirstRuleNamed : List Rule → String → List Rule
  | [], _ => []
  | r :: rs, n => if r.Name = n then rs else r :: deleteFirstRuleNamed rs n

/-- What Go's in-place `append(names[:i], names[i+1:]...)` leaves visible
through the *stored* map entry's slice header (length unchanged, backing
shifted): the name removed, with the original last element duplicated at the
end.  When the name is absent the slice is untouched. -/
def goRemoveNameResidue (names : List String) (x : String) : List String :=
  match names.findIdx? (fun v => v = x) with
  | none => names
  | some _ => removeFirst x names ++ [names.getLastD ""]

/-- `if len(mergedRulesMap[rsName]) == 0 { delete(mergedRulesMap, rsName) }`. -/
def cleanupEmptyEntry (mrm : MRM) (rsName : String) : MRM :=
  if ((alookup mrm rsName).getD []).length = 0 then aerase mrm rsName else mrm

/-- `(rc *ResourceConfig) UnmergeRule(ruleName, mergedRulesMap)`: reverse a
recorded merge for `ruleName`.  Returns `(changed, rc, mergedRulesMap)`;
`none` models a Go nil-pointer or out-of-range panic (a forwarding policy is
assumed to exist whenever a merge record does).  A missing config entry or
rule entry returns `false` with both structures untouched. -/
def ResourceConfig.UnmergeRule (rc : ResourceConfig) (ruleName : String) (mrm : MRM) :
    Option (Bool × ResourceConfig × MRM) :=
  let rsName := rc.GetName
  match alookup mrm rsName with
  | none => some (false, rc, mrm)
  | some inner =>
    match alookup inner ruleName with
    | none => some (false, rc, mrm)
    | some entry =>
      -- This rule had other rules merged into it
      if entry.MergedActions.length ≠ 0 then
        match rc.FindPolicy "forwarding" with
        | none => none
        | some policy =>
          let rules1 := deleteFirstRuleNamed policy.Rules entry.RuleName
          -- Restore each mergee's saved original rule, dropping its map entry
          -- (a missing entry yields Go's zero value, whose nil OriginalRule is
          -- modelled as the zero rule; unreachable in coherent states).
          let (rules2, inner2) := entry.OtherRuleNames.foldl
            (fun (acc : List Rule × List (String × mergedRuleEntry)) mergeeRuleName =>
              let mergeeRuleEntry := (alookup acc.2 mergeeRuleName).getD default
              (acc.1 ++ [mergeeRuleEntry.OriginalRule], aerase acc.2 mergeeRuleName))
            (rules1, inner)
          let rc1 := rc.SetPolicy { policy with Rules := rules2 }
          let inner3 := aerase inner2 ruleName
          let mrm1 := aset mrm rsName inner3
          match rc1.MergeRules mrm1 with
          | none => none
          | some (rc2, mrm2) => some (true, rc2, cleanupEmptyEntry mrm2 rsName)
      -- This rule was merged into another rule
      else
        match entry.OtherRuleNames with
        | [] => none
        | mergerRuleName :: _ =>
          let mergerRuleEntry := (alookup inner mergerRuleName).getD default
          -- The stored entry shares the OtherRuleNames backing array and the
          -- MergedActions map object with the local copy, so the in-place
          -- removal and the map deletion are visible through the store.
          let storedOtherNames := goRemoveNameResidue mergerRuleEntry.OtherRuleNames ruleName
          let mergedActions := (alookup mergerRuleEntry.MergedActions ruleName).getD []
          let newMergedActions := aerase mergerRuleEntry.MergedActions ruleName
          let inner1 := aset inner mergerRuleName
            { mergerRuleEntry with OtherRuleNames := storedOtherNames,
                                   MergedActions := newMergedActions }
          let inner2 := if newMergedActions.length = 0 then aerase inner1 mergerRuleName
                        else inner1
          let inner3 := aerase inner2 ruleName
          match rc.FindPolicy "forwarding" with
          | none => none
          | some policy =>
            let step : Option (List Rule) :=
              match policy.Rules.findIdx? (fun r => r.Name = mergerRuleName) with
              | none => some policy.Rules
              | some i =>
                let r := policy.Rules.getD i default
                -- pointer comparison `mergedActions[j] == ...Actions[k]`
                let deletedActionIndices : List Int := mergedActions.foldl
                  (fun acc a => acc ++ ((List.range r.Actions.length).filter
                    (fun k => (r.Actions.getD k default).ptr = a.ptr)).map Int.ofNat) []
                match goDeleteIndices r.Actions deletedActionIndices with
                | none => none
                | some newActs =>
                  if newActs.length = 0 then some (policy.Rules.eraseIdx i)
                  else some (policy.Rules.set i { r with Actions := newActs })
            match step with
            | none => none
            | some rules' =>
              let policy' := { policy with Rules := rules' }
              let rc1 := if policy'.Rules.length = 0 then rc.RemovePolicy policy'
                         else rc.SetPolicy policy'
              some (true, rc1, cleanupEmptyEntry (aset mrm rsName inner3) rsName)

/-! ## Heap-level embedding (`HP`): rule pointers made explicit

Policies hold `Rules []*Rule` — slices of rule *pointers*.  The claims about
`copyConfig`/`updateOldConfig` snapshot stability and about mutation through
`FindPolicy`'s returned policy are claims about that aliasing, so this second
view of the same source functions models a `*Rule` as a heap identifier and
keeps an explicit heap.  The value-level embedding above is the same code
specialized to the aliasing-free situations its claims need. -/

namespace HP

/-- A `*Rule`: an address into the rule heap. -/
abbrev RuleId := Nat

/-- A policy whose `Rules` slice holds rule pointers. -/
structure HPolicy where
  Name : String
  Partition : String
  Controls : List String
  Requires : List String
  Rules : List RuleId
  deriving DecidableEq, Inhabited, Repr

/-- A resource config at the pointer-aware level. -/
structure HResourceConfig where
  MetaData : MetaData
  Virtual : Virtual
  Pools : List Pool
  Policies : List HPolicy
  deriving DecidableEq, Inhabited, Repr

/-- The rule heap: a next-free address and the memory. -/
structure Heap where
  next : RuleId
  mem : RuleId → Rule

/-- Write through a rule pointer. -/
def Heap.write (h : Heap) (i : RuleId) (r : Rule) : Heap :=
  { h with mem := fun j => if j = i then r else h.mem j }

/-- `&Rule{...}`: allocate a fresh rule object. -/
def Heap.alloc (h : Heap) (r : Rule) : RuleId × Heap :=
  (h.next, { next := h.next + 1, mem := fun j => if j = h.next then r else h.mem j })

/-- Dereference a slice of rule pointers. -/
def viewRules (h : Heap) (ids : List RuleId) : List Rule := ids.map h.mem

/-- The fresh `&Rule{}` built by `copyConfig` for one source rule: zero name,
URI and ordinal, with `make`-sized Actions/Conditions (zero values modelling
the nil `*action`/fresh `&condition{}` entries). -/
def freshZeroRule (src : Rule) : Rule :=
  { Name := "", FullURI := "", Ordinal := 0,
    Conditions := src.Conditions.map (fun _ => default),
    Actions := src.Actions.map (fun _ => default) }

/-- The allocation loop of `copyConfig` (lines 718–727): one fresh rule object
per source rule. -/
def allocFreshRules (h : Heap) (srcIds : List RuleId) : List RuleId × Heap :=
  srcIds.foldl
    (fun (acc : List RuleId × Heap) rid =>
      let (i, h') := acc.2.alloc (freshZeroRule (acc.2.mem rid))
      (acc.1 ++ [i], h'))
    ([], h)

/-- The per-policy body of `copyConfig`: Controls/Requires are copied into
fresh slices (value-identical lists here); fresh rule objects are allocated —
and then `copy(rc.Policies[i].Rules, cfg.Policies[i].Rules)` (line 728)
overwrites the freshly allocated pointers with the *source* pointers, so the
copied policy's `Rules` are the source's rule objects and the subsequent
Actions/Conditions copies (lines 729–735) copy each source rule's slices onto
themselves. -/
def copyPolicy (h : Heap) (pol : HPolicy) : HPolicy × Heap :=
  let (freshIds, h1) := allocFreshRules h pol.Rules
  let rulesAfterCopy := goCopy freshIds pol.Rules
  ({ pol with Rules := rulesAfterCopy }, h1)

/-- `(rc *ResourceConfig) copyConfig(cfg)`: MetaData and Virtual are struct
copies, Pools/Members and the policy slices are copied into fresh slices
holding the same values, and each policy goes through `copyPolicy`. -/
def copyConfig (h : Heap) (cfg : HResourceConfig) : HResourceConfig × Heap :=
  let (pols, h') := cfg.Policies.foldl
    (fun (acc : List HPolicy × Heap) pol =>
      let (p, h2) := copyPolicy acc.2 pol
      (acc.1 ++ [p], h2))
    ([], h)
  ({ MetaData := cfg.MetaData, Virtual := cfg.Virtual, Pools := cfg.Pools,
     Policies := pols }, h')

/-- The resource store: live map and previous-generation snapshot. -/
structure Resources where
  rsMap : List (String × HResourceConfig)
  oldRsMap : List (String × HResourceConfig)
  deriving Inhabited

/-- `(rs *Resources) updateOldConfig()`: rebuild `oldRsMap` as a fresh map of
fresh configs, each filled by `copyConfig` from the live entry. -/
def updateOldConfig (h : Heap) (rs : Resources) : Resources × Heap :=
  let (old, h') := rs.rsMap.foldl
    (fun (acc : List (String × HResourceConfig) × Heap) kv =>
      let (c, h2) := copyConfig acc.2 kv.2
      (acc.1 ++ [(kv.1, c)], h2))
    ([], h)
  ({ rs with oldRsMap := old }, h')

/-- `FindPolicy` at the pointer-aware level: Go returns `&pol` where `pol` is
the loop's struct copy — the copy's `Rules` slice holds the same rule
pointers as the stored policy. -/
def FindPolicy (rc : HResourceConfig) (controlType : String) : Option HPolicy :=
  rc.Policies.find? (fun pol => pol.Controls.any (fun cType => cType = controlType))

end HP

/-! ## Concrete sample inputs (used by witnesses and counterexamples) -/

/-- A bare virtual server in partition `test`. -/
def exVirtual : Virtual :=
  { Name := "vs", Partition := "test", Enabled := true, VirtualAddress := none,
    Destination := "", Profiles := [], IRules := [], Policies := [] }

/-- An app-root forwarding rule (carries a merge-direction marker). -/
def exR1 : Rule :=
  { Name := "app-root-forward-rule-x", FullURI := "foo.com/", Ordinal := 0,
    Conditions := [{ name := "c1", data := "host=foo.com;path=/" }],
    Actions := [{ ptr := 1, name := "a1", data := "forward=pool1" }] }

/-- A plain forwarding rule with the same conditions (name-blinded) as `exR1`. -/
def exR2 : Rule :=
  { Name := "vs-rule-0", FullURI := "foo.com/", Ordinal := 1,
    Conditions := [{ name := "c2", data := "host=foo.com;path=/" }],
    Actions := [{ ptr := 2, name := "a2", data := "forward=pool2" }] }

/-- A forwarding policy holding the two structurally-identical-condition rules. -/
def exPolicy : Policy :=
  { Name := "vs_policy", Partition := "test", Controls := ["forwarding"],
    Requires := ["http"], Rules := [exR1, exR2] }

/-- A resource config with the sample forwarding policy. -/
def exRC : ResourceConfig :=
  { MetaData := { Active := true, rscName := "vs", ResourceType := "VirtualServer" },
    Virtual := { exVirtual with Policies := [{ Name := "vs_policy", Partition := "test" }] },
    Pools := [], Policies := [exPolicy] }

/-- Sample data groups with conflicting data for record `x`, under a name
absent from `groupFlattenFuncMap`. -/
def exDgA : InternalDataGroup :=
  { Name := "unknown_dg", Partition := "test", Records := [{ Name := "x", Data := "a" }] }

/-- Second namespace's copy of the unknown-named group, different data. -/
def exDgB : InternalDataGroup :=
  { Name := "unknown_dg", Partition := "test", Records := [{ Name := "x", Data := "b" }] }

/-- Sample `https_redirect_dg` entries with conflicting path data. -/
def exDgC : InternalDataGroup :=
  { Name := HttpsRedirectDgName, Partition := "test", Records := [{ Name := "x", Data := "/a" }] }

/-- Second namespace's `https_redirect_dg`, different path. -/
def exDgD : InternalDataGroup :=
  { Name := HttpsRedirectDgName, Partition := "test", Records := [{ Name := "x", Data := "/b" }] }

/-- A non-Rule dependency, kept across updates. -/
def exDepA : ObjectDependency :=
  { Kind := "VirtualServer", Namespace := "ns", Name := "vs", Service := "" }

/-- A Rule-kind dependency present only in the old set. -/
def exDepR1 : ObjectDependency :=
  { Kind := "Rule", Namespace := "ns", Name := "foo.com/a", Service := "svc1" }

/-- A Rule-kind dependency present only in the new set. -/
def exDepR2 : ObjectDependency :=
  { Kind := "Rule", Namespace := "ns", Name := "foo.com/b", Service := "svc2" }

/-- Sample TLS profile references in sorted order. -/
def exProf1 : ProfileRef :=
  { Name := "p1", Partition := "a", Context := "clientside", Namespace := "ns" }

/-- A second sample profile, after `exProf1` in (partition, name) order. -/
def exProf2 : ProfileRef :=
  { Name := "p2", Partition := "a", Context := "serverside", Namespace := "ns" }

/-- A heap with one rule object at address 0 (`exR2`) and nothing else. -/
def exHeap : HP.Heap :=
  { next := 1, mem := fun j => if j = 0 then exR2 else default }

/-- A pointer-level forwarding policy whose rule slice points at address 0. -/
def exHPolicy : HP.HPolicy :=
  { Name := "vs_policy", Partition := "test", Controls := ["forwarding"],
    Requires := ["http"], Rules := [0] }

/-- A pointer-level config holding `exHPolicy`. -/
def exHRC : HP.HResourceConfig :=
  { MetaData := { Active := true, rscName := "vs", ResourceType := "VirtualServer" },
    Virtual := exVirtual, Pools := [], Policies := [exHPolicy] }

/-- A store whose live map holds `exHRC`. -/
def exHResources : HP.Resources := { rsMap := [("vs", exHRC)], oldRsMap := [] }

/-- `exR2` with its ordinal overwritten — the mutation written through the
shared rule pointer in the aliasing counterexamples. -/
def exR2Mut : Rule := { exR2 with Ordinal := 7 }

/-! ## Helper lemmas -/

theorem alookup_nil {β : Type} (key : String) : alookup ([] : List (String × β)) key = none := rfl

theorem alookup_cons {β : Type} (k : String) (v : β) (rest : List (String × β)) (key : String) :
    alookup ((k, v) :: rest) key = if k = key then some v else alookup rest key := rfl

theorem aset_nil {β : Type} (key : String) (v : β) :
    aset ([] : List (String × β)) key v = [(key, v)] := rfl

theorem aset_cons {β : Type} (k : String) (w : β) (rest : List (String × β)) (key : String) (v : β) :
    aset ((k, w) :: rest) key v =
      if k = key then (k, v) :: rest else (k, w) :: aset rest key v := rfl

theorem aerase_nil {β : Type} (key : String) : aerase ([] : List (String × β)) key = [] := rfl

theorem aerase_cons {β : Type} (k : String) (w : β) (rest : List (String × β)) (key : String) :
    aerase ((k, w) :: rest) key = if k = key then rest else (k, w) :: aerase rest key := rfl

/-- Decompose a successful `find?`: the list splits at the first hit. -/
theorem find?_eq_some_split {α : Type} (f : α → Bool) :
    ∀ (l : List α) (x : α), l.find? f = some x →
      ∃ pre post, l = pre ++ x :: post ∧ (∀ q ∈ pre, f q = false) ∧ f x = true := by
  intro l
  induction l with
  | nil => intro x h; simp [List.find?] at h
  | cons a as ih =>
    intro x h
    by_cases ha : f a = true
    · rw [List.find?_cons_of_pos _ ha] at h
      cases h
      exact ⟨[], as, rfl, by simp, ha⟩
    · rw [List.find?_cons_of_neg _ ha] at h
      obtain ⟨pre, post, hsplit, hpre, hx⟩ := ih x h
      refine ⟨a :: pre, post, by rw [hsplit]; rfl, ?_, hx⟩
      intro q hq
      rcases List.mem_cons.mp hq with rfl | hq
      · exact Bool.not_eq_true _ ▸ by simpa using ha
      · exact hpre q hq

/-- `setPolicyList` always leaves the new policy in the list. -/
theorem setPolicyList_mem :
    ∀ (l : List Policy) (p : Policy), ∃ pre post, setPolicyList l p = pre ++ p :: post := by
  intro l p
  induction l with
  | nil => exact ⟨[], [], rfl⟩
  | cons q qs ih =>
    by_cases h : q.Name = p.Name ∧ q.Partition = p.Partition
    · exact ⟨[], qs, by simp [setPolicyList, h]⟩
    · obtain ⟨pre, post, hs⟩ := ih
      exact ⟨q :: pre, post, by simp [setPolicyList, h, hs]⟩

/-- Lookup after insertion: the inserted key reads back, others unchanged. -/
theorem alookup_aset {β : Type} :
    ∀ (m : List (String × β)) (k k' : String) (v : β),
      alookup (aset m k v) k' = if k = k' then some v else alookup m k' := by
  intro m k k' v
  induction m with
  | nil => simp [aset, alookup]
  | cons kw rest ih =>
    obtain ⟨kk, w⟩ := kw
    by_cases h : kk = k
    · subst h
      simp only [aset, if_pos rfl, alookup]
      by_cases h2 : kk = k'
      · simp [h2]
      · simp [h2]
    · simp only [aset, if_neg h, alookup, ih]
      by_cases h2 : kk = k'
      · subst h2
        have hne : ¬ k = kk := fun he => h he.symm
        simp [hne]
      · simp [h2]

/-- The removed-list fold of `UpdateDependencies` keeps every removed
dependency of Kind `"Rule"` ahead of every other removed dependency. -/
theorem removedFold_split (newDeps : ObjectDependencies) :
    ∀ (l : List (ObjectDependency × Nat)) (rs os : List ObjectDependency),
      (∀ d ∈ rs, d.Kind = RuleDep) → (∀ d ∈ os, d.Kind ≠ RuleDep) →
      ∃ rs' os',
        l.foldl (fun acc kv => removedStep newDeps acc kv.1) (rs ++ os) = rs' ++ os' ∧
        (∀ d ∈ rs', d.Kind = RuleDep) ∧ (∀ d ∈ os', d.Kind ≠ RuleDep) := by
  intro l
  induction l with
  | nil => intro rs os hr ho; exact ⟨rs, os, rfl, hr, ho⟩
  | cons kv rest ih =>
    intro rs os hr ho
    simp only [List.foldl_cons]
    unfold removedStep
    cases halo : alookup newDeps kv.1 with
    | some _ => exact ih rs os hr ho
    | none =>
      by_cases hk : kv.1.Kind = RuleDep
      · simp only [if_pos hk]
        have hcons : kv.1 :: (rs ++ os) = (kv.1 :: rs) ++ os := rfl
        rw [hcons]
        refine ih (kv.1 :: rs) os ?_ ho
        intro d hd
        rcases List.mem_cons.mp hd with rfl | hd
        · exact hk
        · exact hr d hd
      · simp only [if_neg hk]
        have happ : (rs ++ os) ++ [kv.1] = rs ++ (os ++ [kv.1]) := by
          rw [List.append_assoc]
        rw [happ]
        refine ih rs (os ++ [kv.1]) hr ?_
        intro d hd
        rcases List.mem_append.mp hd with hd | hd
        · exact ho d hd
        · rw [List.mem_singleton.mp hd]
          exact hk

/-- The record-merging loop is keep-first for a data-group name outside the
conflict table: an existing binding survives, an absent record name picks up
the first datum supplied for it. -/
theorem flattenRecords_keepFirst (dgName : String)
    (hdg : alookup groupFlattenFuncMap dgName = none) :
    ∀ (recs : List InternalDataGroupRecord) (fm : List (String × String)) (recName : String),
      alookup (recs.foldl (flattenRecordStep dgName) fm) recName =
        match alookup fm recName with
        | some v => some v
        | none =>
          (recs.filterMap (fun rec =>
            if rec.Name = recName then some rec.Data else none)).head? := by
  intro recs
  induction recs with
  | nil =>
    intro fm recName
    simp only [List.foldl_nil, List.filterMap_nil]
    cases h : alookup fm recName <;> simp [h]
  | cons rec rest ih =>
    intro fm recName
    simp only [List.foldl_cons, List.filterMap_cons]
    rw [ih]
    cases hfm : alookup fm rec.Name with
    | some item =>
      by_cases hne : item ≠ rec.Data
      · have hstep : flattenRecordStep dgName fm rec = aset fm rec.Name item := by
          simp [flattenRecordStep, hfm, hne, hdg, flattenConflictWarn]
        rw [hstep, alookup_aset]
        by_cases hname : rec.Name = recName
        · rw [hname] at hfm
          simp [hname, hfm]
        · simp only [if_neg hname]
      · have hstep : flattenRecordStep dgName fm rec = fm := by
          simp [flattenRecordStep, hfm, hne]
        rw [hstep]
        by_cases hname : rec.Name = recName
        · rw [hname] at hfm
          simp [hname, hfm]
        · simp only [if_neg hname]
    | none =>
      have hstep : flattenRecordStep dgName fm rec = aset fm rec.Name rec.Data := by
        simp [flattenRecordStep, hfm]
      rw [hstep, alookup_aset]
      by_cases hname : rec.Name = recName
      · rw [hname] at hfm
        simp [hname, hfm]
      · simp only [if_neg hname]

/-- Per-namespace extension of `flattenRecords_keepFirst`: over a whole
namespace map of conflict-table-free groups, a record name resolves to the
first datum supplied for it in iteration order. -/
theorem flattenFold_keepFirst :
    ∀ (dgnm : DataGroupNamespaceMap),
      (∀ kv ∈ dgnm, alookup groupFlattenFuncMap kv.2.Name = none) →
      ∀ (acc : String × String × List (String × String)) (recName : String),
        alookup (dgnm.foldl (fun acc kv => flattenNamespaceStep acc kv.2) acc).2.2 recName =
          match alookup acc.2.2 recName with
          | some v => some v
          | none => (recOccurrences dgnm recName).head? := by
  intro dgnm
  induction dgnm with
  | nil =>
    intro _ acc recName
    simp only [List.foldl_nil]
    cases h : alookup acc.2.2 recName <;> simp [h, recOccurrences]
  | cons kv rest ih =>
    intro hall acc recName
    have hkv : alookup groupFlattenFuncMap kv.2.Name = none := hall kv (List.mem_cons_self kv rest)
    have hrest : ∀ kv' ∈ rest, alookup groupFlattenFuncMap kv'.2.Name = none := by
      intro kv' h
      exact hall kv' (List.mem_cons_of_mem kv h)
    simp only [List.foldl_cons]
    rw [ih hrest]
    have hocc : recOccurrences (kv :: rest) recName =
        kv.2.Records.filterMap (fun rec =>
          if rec.Name = recName then some rec.Data else none) ++ recOccurrences rest recName := by
      simp [recOccurrences]
    rw [hocc]
    have hstep : (flattenNamespaceStep acc kv.2).2.2 =
        kv.2.Records.foldl (flattenRecordStep kv.2.Name) acc.2.2 := rfl
    rw [hstep, flattenRecords_keepFirst kv.2.Name hkv]
    cases h1 : alookup acc.2.2 recName with
    | some v => rfl
    | none =>
      cases h2 : (kv.2.Records.filterMap (fun rec =>
          if rec.Name = recName then some rec.Data else none)) with
      | nil => rfl
      | cons d ds => rfl

/-- The reassignment loop gives consecutive ordinals starting at `n`. -/
theorem reassign_map_ordinal :
    ∀ (n : Nat) (rs : List Rule),
      (reassignOrdinalsFrom n rs).map Rule.Ordinal = List.range' n rs.length := by
  intro n rs
  induction rs generalizing n with
  | nil => rfl
  | cons r rs ih => simp [reassignOrdinalsFrom, List.range', ih]

/-- `charListLt` is irreflexive. -/
theorem charListLt_irrefl : ∀ l : List Char, charListLt l l = false := by
  intro l
  induction l with
  | nil => rfl
  | cons c cs ih => simp [charListLt, ih]

/-- `charListLt` is transitive. -/
theorem charListLt_trans :
    ∀ a b c : List Char, charListLt a b = true → charListLt b c = true →
      charListLt a c = true := by
  intro a
  induction a with
  | nil =>
    intro b c hab hbc
    cases b with
    | nil => simp [charListLt] at hab
    | cons y ys =>
      cases c with
      | nil => simp [charListLt] at hbc
      | cons z zs => rfl
  | cons x xs ih =>
    intro b c hab hbc
    cases b with
    | nil => simp [charListLt] at hab
    | cons y ys =>
      cases c with
      | nil => simp [charListLt] at hbc
      | cons z zs =>
        simp only [charListLt, Char.toNat] at hab hbc ⊢
        by_cases h1 : x.val.toNat < y.val.toNat
        · by_cases h2 : y.val.toNat < z.val.toNat
          · rw [if_pos (show x.val.toNat < z.val.toNat by omega)]
          · by_cases h3 : z.val.toNat < y.val.toNat
            · rw [if_neg h2, if_pos h3] at hbc
              cases hbc
            · rw [if_pos (show x.val.toNat < z.val.toNat by omega)]
        · by_cases h4 : y.val.toNat < x.val.toNat
          · rw [if_neg h1, if_pos h4] at hab
            cases hab
          · rw [if_neg h1, if_neg h4] at hab
            by_cases h2 : y.val.toNat < z.val.toNat
            · rw [if_pos (show x.val.toNat < z.val.toNat by omega)]
            · by_cases h3 : z.val.toNat < y.val.toNat
              · rw [if_neg h2, if_pos h3] at hbc
                cases hbc
              · rw [if_neg h2, if_neg h3] at hbc
                rw [if_neg (show ¬ x.val.toNat < z.val.toNat by omega),
                  if_neg (show ¬ z.val.toNat < x.val.toNat by omega)]
                exact ih ys zs hab hbc

/-- Two lists neither of which is below the other are equal. -/
theorem charListLt_eq_of_not_lt :
    ∀ a b : List Char, charListLt a b = false → charListLt b a = false → a = b := by
  intro a
  induction a with
  | nil =>
    intro b h1 _
    cases b with
    | nil => rfl
    | cons y ys => simp [charListLt] at h1
  | cons x xs ih =>
    intro b h1 h2
    cases b with
    | nil => simp [charListLt] at h2
    | cons y ys =>
      simp only [charListLt, Char.toNat] at h1 h2
      by_cases hxy : x.val.toNat < y.val.toNat
      · rw [if_pos hxy] at h1
        cases h1
      · by_cases hyx : y.val.toNat < x.val.toNat
        · rw [if_pos hyx] at h2
          cases h2
        · rw [if_neg hxy, if_neg hyx] at h1
          rw [if_neg hyx, if_neg hxy] at h2
          have hchar : x = y := Char.ext (UInt32.toNat.inj (by omega))
          rw [hchar, ih ys h1 h2]

/-- Go string `<` is irreflexive. -/
theorem strLt_irrefl (s : String) : strLt s s = false := charListLt_irrefl s.data

/-- Go string `<` is transitive. -/
theorem strLt_trans {a b c : String} (h1 : strLt a b = true) (h2 : strLt b c = true) :
    strLt a c = true := charListLt_trans a.data b.data c.data h1 h2

/-- Strings neither of which is below the other are equal. -/
theorem strLt_eq_of_not_lt {a b : String} (h1 : strLt a b = false)
    (h2 : strLt b a = false) : a = b :=
  String.ext (charListLt_eq_of_not_lt a.data b.data h1 h2)

/-- Go string `<` is asymmetric. -/
theorem strLt_asymm {a b : String} (h : strLt a b = true) : strLt b a = false := by
  cases hx : strLt b a
  · rfl
  · have := strLt_trans h hx
    rw [strLt_irrefl] at this
    cases this

/-- A key-equal pair is not `profLtB`-related. -/
theorem profLtB_key_eq_false {a b : ProfileRef} (hp : a.Partition = b.Partition)
    (hn : a.Name = b.Name) : profLtB a b = false := by
  simp [profLtB, hp, hn, strLt_irrefl]

/-- `profLtB` is transitive. -/
theorem profLtB_trans {a b c : ProfileRef} (hab : profLtB a b = true)
    (hbc : profLtB b c = true) : profLtB a c = true := by
  simp only [profLtB, Bool.or_eq_true, Bool.and_eq_true, decide_eq_true_eq] at hab hbc ⊢
  rcases hab with h1 | ⟨he, h2⟩
  · rcases hbc with h3 | ⟨he2, h4⟩
    · exact Or.inl (strLt_trans h1 h3)
    · exact Or.inl (he2 ▸ h1)
  · rcases hbc with h3 | ⟨he2, h4⟩
    · exact Or.inl (he ▸ h3)
    · exact Or.inr ⟨he.trans he2, strLt_trans h2 h4⟩

/-- Key-based trichotomy: if `p` is not below `q` and the keys differ, then
`q` is below `p`. -/
theorem profLtB_of_not_lt_of_ne {p q : ProfileRef} (h : profLtB p q = false)
    (hkey : ¬ (p.Partition = q.Partition ∧ p.Name = q.Name)) :
    profLtB q p = true := by
  simp only [profLtB, Bool.or_eq_false_iff, Bool.and_eq_false_iff, decide_eq_false_iff_not] at h
  obtain ⟨hpp, hrest⟩ := h
  simp only [profLtB, Bool.or_eq_true, Bool.and_eq_true, decide_eq_true_eq]
  by_cases hqp : strLt q.Partition p.Partition = true
  · exact Or.inl hqp
  · have hqp' : strLt q.Partition p.Partition = false := by
      cases hx : strLt q.Partition p.Partition
      · rfl
      · exact absurd hx hqp
    have heq : p.Partition = q.Partition := strLt_eq_of_not_lt hpp hqp'
    rcases hrest with hne | hnm
    · exact absurd heq hne
    · by_cases hqn : strLt q.Name p.Name = true
      · exact Or.inr ⟨heq.symm, hqn⟩
      · have hqn' : strLt q.Name p.Name = false := by
          cases hx : strLt q.Name p.Name
          · rfl
          · exact absurd hx hqn
        exact absurd ⟨heq, strLt_eq_of_not_lt hnm hqn'⟩ hkey

/-- `profLtB` only reads the partition and name fields (left congruence). -/
theorem profLtB_congr_left {q p : ProfileRef} (hp : q.Partition = p.Partition)
    (hn : q.Name = p.Name) (x : ProfileRef) : profLtB q x = profLtB p x := by
  simp [profLtB, hp, hn]

/-- `profLtB` only reads the partition and name fields (right congruence). -/
theorem profLtB_congr_right {q p : ProfileRef} (hp : q.Partition = p.Partition)
    (hn : q.Name = p.Name) (x : ProfileRef) : profLtB x q = profLtB x p := by
  simp [profLtB, hp, hn]

/-- `getD` with the default at an in-range index is `getElem`. -/
theorem getD_eq_getElem_of_lt {α : Type} [Inhabited α] (l : List α) (n : Nat)
    (h : n < l.length) : l.getD n default = l[n] := by
  simp [List.getD_eq_getElem?_getD, List.getElem?_eq_getElem h]

/-- Correctness of the embedded `sort.Search` loop: with enough fuel and a
false-then-true predicate on `[i, j)`, the result is the least index at which
the predicate is true (or `j`). -/
theorem goSearchAux_spec (f : Nat → Bool) :
    ∀ (fuel i j : Nat), j - i ≤ fuel → i ≤ j →
      (∀ a b, i ≤ a → a ≤ b → b < j → f a = true → f b = true) →
      i ≤ goSearchAux f fuel i j ∧ goSearchAux f fuel i j ≤ j ∧
      (∀ k, i ≤ k → k < goSearchAux f fuel i j → f k = false) ∧
      (goSearchAux f fuel i j < j → f (goSearchAux f fuel i j) = true) := by
  intro fuel
  induction fuel with
  | zero =>
    intro i j hfuel hij _
    have hji : i = j := by omega
    subst hji
    simp only [goSearchAux]
    refine ⟨Nat.le_refl _, Nat.le_refl _, ?_, ?_⟩
    · intro k h1 h2
      exact absurd h2 (by omega)
    · intro h
      exact absurd h (by omega)
  | succ fuel ih =>
    intro i j hfuel hij mono
    by_cases hij2 : i < j
    · simp only [goSearchAux, if_pos hij2]
      by_cases hfm : f ((i + j) / 2) = true
      · rw [if_pos hfm]
        have hrec := ih i ((i + j) / 2) (by omega) (by omega)
          (fun a b ha hab hb hfa => mono a b ha hab (by omega) hfa)
        obtain ⟨h1, h2, h3, h4⟩ := hrec
        refine ⟨h1, by omega, h3, ?_⟩
        intro hr
        by_cases hrm : goSearchAux f fuel i ((i + j) / 2) < (i + j) / 2
        · exact h4 hrm
        · have hreq : goSearchAux f fuel i ((i + j) / 2) = (i + j) / 2 := by omega
          rw [hreq]
          exact hfm
      · rw [if_neg hfm]
        have hrec := ih ((i + j) / 2 + 1) j (by omega) (by omega)
          (fun a b ha hab hb hfa => mono a b (by omega) hab hb hfa)
        obtain ⟨h1, h2, h3, h4⟩ := hrec
        refine ⟨by omega, h2, ?_, h4⟩
        intro k hk1 hk2
        by_cases hkm : (i + j) / 2 + 1 ≤ k
        · exact h3 k hkm hk2
        · cases hfk : f k
          · rfl
          · exact absurd (mono k ((i + j) / 2) hk1 (by omega) (by omega) hfk) hfm
    · simp only [goSearchAux, if_neg hij2]
      refine ⟨Nat.le_refl _, by omega, ?_, ?_⟩
      · intro k h1 h2
        exact absurd h2 (by omega)
      · intro h
        exact absurd h (by omega)

/-- `sort.Search` over `[0, n)`. -/
theorem goSearch_spec (f : Nat → Bool) (n : Nat)
    (mono : ∀ a b, a ≤ b → b < n → f a = true → f b = true) :
    goSearch f n ≤ n ∧ (∀ k, k < goSearch f n → f k = false) ∧
      (goSearch f n < n → f (goSearch f n) = true) := by
  have h := goSearchAux_spec f n 0 n (by omega) (by omega)
    (fun a b _ hab hb hfa => mono a b hab hb hfa)
  exact ⟨h.2.1, fun k hk => h.2.2.1 k (by omega) hk, h.2.2.2⟩

/-- The search predicate of `AddOrUpdateProfile` is the complement of
"the profile at `i` is strictly below `prof`". -/
theorem profKeyFunc_eq_not_lt (ps : List ProfileRef) (prof : ProfileRef) (i : Nat) :
    profKeyFunc ps prof i = !(profLtB (ps.getD i default) prof) := by
  set p := ps.getD i default with hp
  simp only [profKeyFunc, profLtB, ← hp]
  by_cases h1 : strLt prof.Partition p.Partition = true
  · have h2 : strLt p.Partition prof.Partition = false := strLt_asymm h1
    have h3 : ¬ p.Partition = prof.Partition := by
      intro he
      rw [he, strLt_irrefl] at h1
      cases h1
    simp [h1, h2, h3]
  · have h1' : strLt prof.Partition p.Partition = false := by
      cases hx : strLt prof.Partition p.Partition
      · rfl
      · exact absurd hx h1
    by_cases h2 : strLt p.Partition prof.Partition = true
    · have h3 : ¬ p.Partition = prof.Partition := by
        intro he
        rw [he, strLt_irrefl] at h2
        cases h2
      simp [h1', h2, h3]
    · have h2' : strLt p.Partition prof.Partition = false := by
        cases hx : strLt p.Partition prof.Partition
        · rfl
        · exact absurd hx h2
      have he : p.Partition = prof.Partition := strLt_eq_of_not_lt h2' h1'
      simp [h1', h2', he, strLt_irrefl]

/-- On a sorted, duplicate-free profile list the search predicate is
monotone (false-then-true). -/
theorem profKeyFunc_mono (ps : List ProfileRef) (prof : ProfileRef)
    (hs : ps.Pairwise (fun a b => profLtB a b = true)) :
    ∀ a b, a ≤ b → b < ps.length → profKeyFunc ps prof a = true →
      profKeyFunc ps prof b = true := by
  intro a b hab hb hfa
  by_cases heq : a = b
  · rw [← heq]
    exact hfa
  have hab' : a < b := by omega
  have ha : a < ps.length := by omega
  rw [profKeyFunc_eq_not_lt] at hfa ⊢
  rw [getD_eq_getElem_of_lt ps a ha] at hfa
  rw [getD_eq_getElem_of_lt ps b hb]
  have hlt : profLtB ps[a] ps[b] = true :=
    (List.pairwise_iff_getElem.mp hs) a b ha hb hab'
  cases hx : profLtB ps[b] prof
  · rfl
  · have htr := profLtB_trans hlt hx
    rw [htr] at hfa
    cases hfa

/-- Elements of `take` come from in-range indices below the cut. -/
theorem mem_take_getElem {α : Type} :
    ∀ (l : List α) (i : Nat) (a : α), a ∈ l.take i →
      ∃ k, ∃ _ : k < l.length, k < i ∧ l[k] = a := by
  intro l
  induction l with
  | nil =>
    intro i a h
    simp at h
  | cons x xs ih =>
    intro i a h
    cases i with
    | zero => simp at h
    | succ k =>
      rw [List.take_succ_cons] at h
      rcases List.mem_cons.mp h with rfl | h
      · exact ⟨0, by simp, by omega, rfl⟩
      · obtain ⟨m, hm, hmi, hget⟩ := ih k a h
        exact ⟨m + 1, by simpa using hm, by omega, by simpa using hget⟩

/-- Elements of `drop` come from in-range indices at or above the cut. -/
theorem mem_drop_getElem {α : Type} :
    ∀ (l : List α) (i : Nat) (a : α), a ∈ l.drop i →
      ∃ k, ∃ _ : k < l.length, i ≤ k ∧ l[k] = a := by
  intro l
  induction l with
  | nil =>
    intro i a h
    simp at h
  | cons x xs ih =>
    intro i a h
    cases i with
    | zero =>
      rw [List.drop_zero] at h
      obtain ⟨k, hk, he⟩ := List.mem_iff_getElem.mp h
      exact ⟨k, hk, by omega, he⟩
    | succ k =>
      rw [List.drop_succ_cons] at h
      obtain ⟨m, hm, hmi, hget⟩ := ih k a h
      exact ⟨m + 1, by simpa using hm, by omega, by simpa using hget⟩

/-- `goInsertShift` then writing at the gap is insertion at position `i`. -/
theorem goInsertShift_set {α : Type} [Inhabited α] :
    ∀ (l : List α) (i : Nat) (x : α), i ≤ l.length →
      (goInsertShift l i).set i x = l.take i ++ x :: l.drop i := by
  intro l
  induction l with
  | nil =>
    intro i x hi
    have : i = 0 := by simpa using hi
    subst this
    rfl
  | cons a l ih =>
    intro i x hi
    cases i with
    | zero =>
      simp only [goInsertShift, goCopy]
      have hga : (a :: l) ++ [default] = a :: (l ++ [default]) := rfl
      rw [hga]
      rw [show (a :: (l ++ [default])).take (0 + 1) = [a] from rfl]
      rw [show (a :: (l ++ [default])).drop (0 + 1) = l ++ [default] from rfl]
      rw [show (a :: (l ++ [default])).drop 0 = a :: (l ++ [default]) from rfl]
      have hdl : (l ++ [default]).length = l.length + 1 := by simp
      have hsl : (a :: (l ++ [default])).length = l.length + 1 + 1 := by simp
      rw [hdl, hsl]
      rw [show min (l.length + 1) (l.length + 1 + 1) = l.length + 1 from by omega]
      rw [show (a :: (l ++ [default])).take (l.length + 1) = a :: l from by
        rw [List.take_succ_cons, List.take_left]]
      have hdropnil : (l ++ [default]).drop (l.length + 1) = [] :=
        List.drop_eq_nil_of_le (by simp)
      rw [hdropnil]
      simp
    | succ k =>
      have hk : k ≤ l.length := by simpa using hi
      have hstep : goInsertShift (a :: l) (k + 1) = a :: goInsertShift l k := by
        simp [goInsertShift]
      rw [hstep]
      simp only [List.set_cons_succ, List.take_succ_cons, List.drop_succ_cons,
        List.cons_append]
      rw [ih k x hk]

/-- Single-call invariant preservation, replacement no-op, and idempotence
for `AddOrUpdateProfile` on a sorted, duplicate-free profile list. -/
theorem addOrUpdateProfile_sorted (v : Virtual) (prof : ProfileRef)
    (hs : v.Profiles.Pairwise (fun a b => profLtB a b = true)) :
    ((v.AddOrUpdateProfile prof).1).Profiles.Pairwise (fun a b => profLtB a b = true) := by
  unfold Virtual.AddOrUpdateProfile
  set ps := v.Profiles with hps
  set i := goSearch (profKeyFunc ps prof) ps.length with hi
  have hspec := goSearch_spec (profKeyFunc ps prof) ps.length
    (profKeyFunc_mono ps prof hs)
  rw [← hi] at hspec
  obtain ⟨hin, hbelow, hat⟩ := hspec
  by_cases hfound : i < ps.length ∧ (ps.getD i default).Partition = prof.Partition ∧
      (ps.getD i default).Name = prof.Name
  · rw [if_pos hfound]
    by_cases hctx : (ps.getD i default).Context = prof.Context
    · rw [if_pos hctx]
      exact hs
    · rw [if_neg hctx]
      simp only
      obtain ⟨hilt, hpart, hname⟩ := hfound
      rw [getD_eq_getElem_of_lt ps i hilt] at hpart hname
      rw [List.pairwise_iff_getElem] at hs ⊢
      intro a b ha hb hab
      have ha' : a < ps.length := by simpa using ha
      have hb' : b < ps.length := by simpa using hb
      rw [List.getElem_set, List.getElem_set]
      by_cases hia : i = a <;> by_cases hib : i = b
      · omega
      · subst hia
        rw [if_pos rfl, if_neg hib]
        have horg : profLtB ps[i] ps[b] = true := hs i b ha' hb' hab
        rw [← profLtB_congr_left hpart hname]
        exact horg
      · subst hib
        rw [if_neg hia, if_pos rfl]
        have horg : profLtB ps[a] ps[i] = true := hs a i ha' hb' hab
        rw [← profLtB_congr_right hpart hname]
        exact horg
      · rw [if_neg hia, if_neg hib]
        exact hs a b ha' hb' hab
  · rw [if_neg hfound]
    simp only
    rw [goInsertShift_set ps i prof hin]
    -- elements strictly below the insertion point are below `prof`
    have hlow : ∀ k, k < i → (hk : k < ps.length) → profLtB ps[k] prof = true := by
      intro k hk hk'
      have hfk := hbelow k hk
      rw [profKeyFunc_eq_not_lt, getD_eq_getElem_of_lt ps k hk'] at hfk
      cases hx : profLtB ps[k] prof
      · rw [hx] at hfk
        cases hfk
      · rfl
    -- `prof` is strictly below the element at the insertion point
    have hhigh : ∀ hilt : i < ps.length, profLtB prof ps[i] = true := by
      intro hilt
      have hfi := hat hilt
      rw [profKeyFunc_eq_not_lt, getD_eq_getElem_of_lt ps i hilt] at hfi
      have hnotlt : profLtB ps[i] prof = false := by
        cases hx : profLtB ps[i] prof
        · rfl
        · rw [hx] at hfi
          cases hfi
      apply profLtB_of_not_lt_of_ne hnotlt
      intro ⟨hp, hn⟩
      rw [getD_eq_getElem_of_lt ps i hilt] at hfound
      exact hfound ⟨hilt, hp, hn⟩
    -- assemble pairwise of take ++ prof :: drop
    rw [List.pairwise_append]
    refine ⟨hs.sublist (List.take_sublist i ps), ?_, ?_⟩
    · rw [List.pairwise_cons]
      constructor
      · intro b hb
        obtain ⟨k, hk, hik, hbk⟩ := mem_drop_getElem ps i b hb
        rw [← hbk]
        by_cases hki : k = i
        · subst hki
          exact hhigh hk
        · have hilt : i < ps.length := by omega
          have hik' : i < k := by omega
          exact profLtB_trans (hhigh hilt)
            ((List.pairwise_iff_getElem.mp hs) i k hilt hk hik')
      · exact hs.sublist (List.drop_sublist i ps)
    · intro a ha b hb
      obtain ⟨k1, hk1, hik1, hak⟩ := mem_take_getElem ps i a ha
      rcases List.mem_cons.mp hb with rfl | hb
      · rw [← hak]
        exact hlow k1 hik1 hk1
      · obtain ⟨k2, hk2, hik2, hbk⟩ := mem_drop_getElem ps i b hb
        rw [← hak, ← hbk]
        exact (List.pairwise_iff_getElem.mp hs) k1 k2 hk1 hk2 (by omega)

/-- A profile already present with identical context makes `AddOrUpdateProfile`
a no-op returning false. -/
theorem addOrUpdateProfile_idem (v : Virtual) (prof : ProfileRef)
    (hs : v.Profiles.Pairwise (fun a b => profLtB a b = true))
    (hpresent : ∃ q ∈ v.Profiles, q.Partition = prof.Partition ∧ q.Name = prof.Name ∧
      q.Context = prof.Context) :
    v.AddOrUpdateProfile prof = (v, false) := by
  unfold Virtual.AddOrUpdateProfile
  set ps := v.Profiles with hps
  set i := goSearch (profKeyFunc ps prof) ps.length with hi
  have hspec := goSearch_spec (profKeyFunc ps prof) ps.length
    (profKeyFunc_mono ps prof hs)
  rw [← hi] at hspec
  obtain ⟨hin, hbelow, hat⟩ := hspec
  obtain ⟨q, hq, hqp, hqn, hqc⟩ := hpresent
  obtain ⟨m, hm, hqm⟩ := List.mem_iff_getElem.mp hq
  have him : i = m := by
    by_cases hlt : m < i
    · have hfm := hbelow m hlt
      rw [profKeyFunc_eq_not_lt, getD_eq_getElem_of_lt ps m hm] at hfm
      have hmt : profLtB ps[m] prof = true := by
        cases hx : profLtB ps[m] prof
        · rw [hx] at hfm
          cases hfm
        · rfl
      rw [hqm, profLtB_key_eq_false hqp hqn] at hmt
      cases hmt
    · by_cases hgt : i < m
      · have hilt : i < ps.length := by omega
        have hfi := hat hilt
        rw [profKeyFunc_eq_not_lt, getD_eq_getElem_of_lt ps i hilt] at hfi
        have hnot : profLtB ps[i] prof = false := by
          cases hx : profLtB ps[i] prof
          · rfl
          · rw [hx] at hfi
            cases hfi
        have hpair : profLtB ps[i] ps[m] = true :=
          (List.pairwise_iff_getElem.mp hs) i m hilt hm hgt
        have hq' : profLtB ps[i] q = true := by
          rw [hqm] at hpair
          exact hpair
        have hcontra : profLtB ps[i] prof = true := by
          rw [← profLtB_congr_right hqp hqn ps[i]]
          exact hq'
        rw [hcontra] at hnot
        cases hnot
      · omega
  subst him
  have hcond : i < ps.length ∧ (ps.getD i default).Partition = prof.Partition ∧
      (ps.getD i default).Name = prof.Name := by
    refine ⟨hm, ?_, ?_⟩
    · rw [getD_eq_getElem_of_lt ps i hm, hqm]
      exact hqp
    · rw [getD_eq_getElem_of_lt ps i hm, hqm]
      exact hqn
  rw [if_pos hcond]
  have hctx : (ps.getD i default).Context = prof.Context := by
    rw [getD_eq_getElem_of_lt ps i hm, hqm]
    exact hqc
  rw [if_pos hctx]

/-- Symbolic execution of one `mergePairStep` on a two-rule list whose rules
have structurally identical conditions (ignoring names) and whose first rule
carries an app-root/url-rewrite marker: the first rule is absorbed into the
second, and the merged-rules map records both under the policy key. -/
theorem pairstep_two (key : String) (r1 r2 : Rule) (na : List action)
    (ma : List (String × List action))
    (hrs2 : strEndsWith r2.Name "-reset" = false)
    (hclen : r1.Conditions.length = r2.Conditions.length)
    (hcmatch : condMatchCount r1.Conditions r2.Conditions = r1.Conditions.length)
    (hm1 : hasMarker r1.Name = true)
    (hga : goMergeActions r1.Name r1.Actions r2.Actions = (na, ma))
    (hml : ma ≠ [])
    (hname : r1.Name ≠ r2.Name) :
    mergePairStep key ⟨[r1, r2], [], [], []⟩ 0 1 =
      ⟨[r1, { r2 with Actions := na }], [0], [],
        [(key, [(r2.Name, ⟨r2.Name, [r1.Name], ma, { r2 with Actions := na }⟩),
                (r1.Name, ⟨r1.Name, [r2.Name], [], r1⟩)])]⟩ := by
  unfold mergePairStep
  simp only [List.getD_cons_zero, List.getD_cons_succ, hrs2, Bool.false_eq_true, if_false]
  rw [if_pos ⟨hclen, hcmatch⟩]
  simp only [hm1]
  rw [if_pos (by tauto)]
  rw [hga]
  simp only
  unfold processMergedEntries
  have hml' : ma.length ≠ 0 := by
    cases ma
    · exact absurd rfl hml
    · simp
  rw [if_pos hml']
  simp only [alookup, aset]
  rw [if_neg (fun h => hname h.symm)]
  rfl

/-- `MergeRules` on a config with a single forwarding policy of exactly two
mergeable rules: the first rule is deleted after being absorbed into the
second, and the merged-rules map records the merge. -/
theorem mergeRules_two (rc : ResourceConfig) (pol : Policy) (r1 r2 : Rule)
    (na : List action) (ma : List (String × List action))
    (hpol : rc.Policies = [pol])
    (hctl : pol.Controls.any (fun cType => cType = "forwarding") = true)
    (hrules : pol.Rules = [r1, r2])
    (hm1 : hasMarker r1.Name = true)
    (hrs1 : strEndsWith r1.Name "-reset" = false)
    (hrs2 : strEndsWith r2.Name "-reset" = false)
    (hclen : r1.Conditions.length = r2.Conditions.length)
    (hcmatch : condMatchCount r1.Conditions r2.Conditions = r1.Conditions.length)
    (hga : goMergeActions r1.Name r1.Actions r2.Actions = (na, ma))
    (hml : ma ≠ [])
    (hname : r1.Name ≠ r2.Name) :
    rc.MergeRules [] =
      some (rc.SetPolicy { pol with Rules := [{ r2 with Actions := na }] },
        [(rc.GetName, [(r2.Name, ⟨r2.Name, [r1.Name], ma, { r2 with Actions := na }⟩),
                       (r1.Name, ⟨r1.Name, [r2.Name], [], r1⟩)])]) := by
  have hfp : rc.FindPolicy "forwarding" = some pol := by
    simp [ResourceConfig.FindPolicy, hpol, hctl]
  unfold ResourceConfig.MergeRules
  rw [hfp]
  simp only [hrules]
  rw [show List.range ([r1, r2].length) = [0, 1] from rfl]
  simp only [List.foldl_cons, List.foldl_nil]
  rw [show ([r1, r2].length - (0 + 1)) = 1 from rfl]
  rw [show List.range' (0 + 1) 1 = [1] from rfl]
  simp only [List.getD_cons_zero, hrs1, Bool.false_eq_true, if_false,
    List.foldl_cons, List.foldl_nil]
  rw [pairstep_two rc.GetName r1 r2 na ma hrs2 hclen hcmatch hm1 hga hml hname]
  simp only [List.getD_cons_succ, List.getD_cons_zero, hrs2, Bool.false_eq_true, if_false]
  rw [show ([r1, r2].length - (1 + 1)) = 0 from rfl]
  rw [show List.range' (1 + 1) 0 = [] from rfl]
  simp only [List.foldl_nil]
  rfl

/-- `MergeRules` on a single-rule forwarding policy that is not a reset rule
is the identity on the merged-rules map and re-sets the policy unchanged. -/
theorem mergeRules_single (rc : ResourceConfig) (pol : Policy) (r : Rule) (mrm : MRM)
    (hpol : rc.Policies = [pol])
    (hctl : pol.Controls.any (fun cType => cType = "forwarding") = true)
    (hrules : pol.Rules = [r])
    (hrs : strEndsWith r.Name "-reset" = false) :
    rc.MergeRules mrm = some (rc.SetPolicy { pol with Rules := [r] }, mrm) := by
  have hfp : rc.FindPolicy "forwarding" = some pol := by
    simp [ResourceConfig.FindPolicy, hpol, hctl]
  unfold ResourceConfig.MergeRules
  rw [hfp]
  simp only [hrules]
  rw [show List.range ([r].length) = [0] from rfl]
  simp only [List.foldl_cons, List.foldl_nil, List.getD_cons_zero, hrs,
    Bool.false_eq_true, if_false]
  rw [show ([r].length - (0 + 1)) = 0 from rfl]
  rw [show List.range' (0 + 1) 0 = [] from rfl]
  simp only [List.foldl_nil]
  rfl

theorem alookup_cons_self {β : Type} (k : String) (v : β) (rest : List (String × β)) :
    alookup ((k, v) :: rest) k = some v := by simp [alookup]

theorem alookup_cons_ne {β : Type} {k key : String} (h : k ≠ key) (v : β)
    (rest : List (String × β)) :
    alookup ((k, v) :: rest) key = alookup rest key := by simp [alookup, h]

theorem aerase_cons_self {β : Type} (k : String) (v : β) (rest : List (String × β)) :
    aerase ((k, v) :: rest) k = rest := by simp [aerase]

theorem aerase_cons_ne {β : Type} {k key : String} (h : k ≠ key) (v : β)
    (rest : List (String × β)) :
    aerase ((k, v) :: rest) key = (k, v) :: aerase rest key := by simp [aerase, h]

theorem aset_cons_self {β : Type} (k : String) (v w : β) (rest : List (String × β)) :
    aset ((k, v) :: rest) k w = (k, w) :: rest := by simp [aset]

/-- `UnmergeRule` called with the merger rule's own name: the merger's rule is
deleted from the policy, each mergee's saved original is restored, and both
map entries are cleaned up. -/
theorem unmergeRule_merger (rc1 : ResourceConfig) (polM : Policy) (rM r1 : Rule)
    (ma : List (String × List action))
    (hpol : rc1.Policies = [polM])
    (hctl : polM.Controls.any (fun cType => cType = "forwarding") = true)
    (hrules : polM.Rules = [rM])
    (hrs1 : strEndsWith r1.Name "-reset" = false)
    (hml : ma ≠ [])
    (hname : r1.Name ≠ rM.Name) :
    rc1.UnmergeRule rM.Name
      [(rc1.GetName, [(rM.Name, ⟨rM.Name, [r1.Name], ma, rM⟩),
                      (r1.Name, ⟨r1.Name, [rM.Name], [], r1⟩)])] =
      some (true,
        (rc1.SetPolicy { polM with Rules := [r1] }).SetPolicy { polM with Rules := [r1] },
        []) := by
  have hml' : ma.length ≠ 0 := by
    cases ma
    · exact absurd rfl hml
    · simp
  have hfp : rc1.FindPolicy "forwarding" = some polM := by
    simp [ResourceConfig.FindPolicy, hpol, hctl]
  have hP2 : (rc1.SetPolicy { polM with Rules := [r1] }).Policies =
      [{ polM with Rules := [r1] }] := by
    simp [ResourceConfig.SetPolicy, hpol, setPolicyList]
  have hctl2 : ({ polM with Rules := [r1] } : Policy).Controls.any
      (fun cType => cType = "forwarding") = true := hctl
  unfold ResourceConfig.UnmergeRule
  simp only [alookup_cons_self]
  rw [if_pos hml']
  rw [hfp]
  simp only []
  rw [show deleteFirstRuleNamed polM.Rules rM.Name = ([] : List Rule) from by
    rw [hrules]; simp [deleteFirstRuleNamed]]
  simp only [List.foldl_cons, List.foldl_nil]
  simp only [alookup_cons_ne (Ne.symm hname), alookup_cons_self, Option.getD_some]
  simp only [aerase_cons_ne (Ne.symm hname), aerase_cons_self]
  simp only [List.nil_append, aset_cons_self]
  rw [mergeRules_single _ _ r1 _ hP2 hctl2 rfl hrs1]
  simp only [cleanupEmptyEntry, alookup_cons_self, Option.getD_some, List.length_nil,
    aerase_cons_self]
  rfl

/-! ## Claim theorems -/

/-- C7, counterexample: the claimed example output is wrong.  `AS3NameFormatter`
does map `%` to `.`, but it also maps every `.` to `_`, so
`AS3NameFormatter "10.1.1.1%20"` is `"10_1_1_1.20"`, not the claimed
`"10.1.1.1.20"`. -/
theorem c7_counterexample :
    AS3NameFormatter "10.1.1.1%20" = "10_1_1_1.20" ∧
    AS3NameFormatter "10.1.1.1%20" ≠ "10.1.1.1.20" := by
  constructor <;> decide

/-- C7, amended: `AS3NameFormatter "ns1/svc:8080" = "ns1_svc_8080"`; a `%`
anywhere in the input yields a `.` at the same position (the formatter is a
per-character map sending `%` to `.`); and the `%`-example
`"10.1.1.1%20"` yields `"10_1_1_1.20"` (the dots are themselves rewritten to
underscores). -/
theorem c7_formatter :
    AS3NameFormatter "ns1/svc:8080" = "ns1_svc_8080" ∧
    (∀ (s : String) (i : Nat), s.data[i]? = some '%' →
      (AS3NameFormatter s).data[i]? = some '.') ∧
    AS3NameFormatter "10.1.1.1%20" = "10_1_1_1.20" := by
  refine ⟨by decide, ?_, by decide⟩
  intro s i h
  have hdata : (AS3NameFormatter s).data = s.data.map as3Char := rfl
  rw [hdata, List.getElem?_map, h]
  rfl

/-- C7, witness for the positional conjunct of `c7_formatter` at `"a%b"`. -/
theorem c7_witness :
    "a%b".data[1]? = some '%' ∧ (AS3NameFormatter "a%b").data[1]? = some '.' :=
  ⟨by decide, c7_formatter.2.1 "a%b" 1 (by decide)⟩

/-- C6: `SetVirtualAddress("", 0)` always clears the virtual address and the
destination; `SetVirtualAddress("10.1.1.1", 443)` on a partition-`test`
virtual produces destination `/test/10.1.1.1:443`; and whenever the IP part
of the bind address (route domain split off) fails to parse, the destination
is left empty — for any parsing collaborator. -/
theorem c6_setVirtualAddress :
    (∀ (v : Virtual) (parse : String → Option IPAddr),
        (v.SetVirtualAddressWith parse "" 0).VirtualAddress = none ∧
        (v.SetVirtualAddressWith parse "" 0).Destination = "") ∧
    (∀ v : Virtual, v.Partition = "test" →
        (v.SetVirtualAddress "10.1.1.1" 443).Destination = "/test/10.1.1.1:443") ∧
    (∀ (v : Virtual) (parse : String → Option IPAddr) (bindAddr : String) (port : Int),
        parse (split_ip_with_route_domain bindAddr).1 = none →
        (v.SetVirtualAddressWith parse bindAddr port).Destination = "") := by
  refine ⟨?_, ?_, ?_⟩
  · intro v parse
    exact ⟨rfl, rfl⟩
  · intro v h
    have h0 : ¬("10.1.1.1" = "" ∧ (443 : Int) = 0) := by decide
    have h1 : split_ip_with_route_domain "10.1.1.1" = ("10.1.1.1", "") := by decide
    have h2 : goParseIP "10.1.1.1" = some (IPAddr.v4 10 1 1 1) := by decide
    simp only [Virtual.SetVirtualAddress, Virtual.SetVirtualAddressWith, h0, if_false,
      if_neg h0, h1, h2, h]
    decide
  · intro v parse bindAddr port h
    by_cases hc : bindAddr = "" ∧ port = 0
    · simp [Virtual.SetVirtualAddressWith, hc]
    · rcases hsplit : split_ip_with_route_domain bindAddr with ⟨ip, rd0⟩
      rw [hsplit] at h
      simp [Virtual.SetVirtualAddressWith, hc, hsplit, h]

/-- C6, witness: the concrete-partition conjunct at `exVirtual` and the
parse-failure conjunct at the unparseable address `"hello"`. -/
theorem c6_witness :
    (exVirtual.Partition = "test" ∧
      (exVirtual.SetVirtualAddress "10.1.1.1" 443).Destination = "/test/10.1.1.1:443") ∧
    (goParseIP (split_ip_with_route_domain "hello").1 = none ∧
      (exVirtual.SetVirtualAddressWith goParseIP "hello" 80).Destination = "") :=
  ⟨⟨rfl, c6_setVirtualAddress.2.1 exVirtual rfl⟩,
   ⟨by decide, c6_setVirtualAddress.2.2 exVirtual goParseIP "hello" 80 (by decide)⟩⟩

/-- C10: when `mergedRulesMap` has no entry for this config, or an entry for
the config but none for the rule name, `UnmergeRule` reports `false` and
leaves the config and the map untouched. -/
theorem c10_unmergeRule_missing :
    ∀ (rc : ResourceConfig) (ruleName : String) (mrm : MRM),
      (alookup mrm rc.GetName = none ∨
        (∃ inner, alookup mrm rc.GetName = some inner ∧ alookup inner ruleName = none)) →
      rc.UnmergeRule ruleName mrm = some (false, rc, mrm) := by
  intro rc ruleName mrm h
  rcases h with h | ⟨inner, h1, h2⟩
  · simp [ResourceConfig.UnmergeRule, h]
  · simp [ResourceConfig.UnmergeRule, h1, h2]

/-- C10, witness: an empty merged-rules map at a concrete config. -/
theorem c10_witness : exRC.UnmergeRule "x" [] = some (false, exRC, []) :=
  c10_unmergeRule_missing exRC "x" [] (Or.inl rfl)

/-- C1, counterexample: on the sample policy, `MergeRules` folds `exR1` (the
app-root rule) into `exR2`; `UnmergeRule` on the merged result (`"vs-rule-0"`,
the merger) then deletes the merger's rule and restores only the mergee's
saved original, so the round trip leaves the policy with `[exR1]` alone —
`exR2` is gone, not restored, contradicting "restores the exact original two
rules". -/
theorem c1_counterexample :
    ((exRC.MergeRules []).bind (fun p => p.1.UnmergeRule "vs-rule-0" p.2)).map
      (fun t => (t.1, t.2.1.Policies.map Policy.Rules, t.2.2)) =
      some (true, [[exR1]], []) ∧
    exR2 ∉ [exR1] := by
  constructor <;> decide


/-- C1, amended: on a single forwarding policy with exactly two rules whose
condition sets are structurally identical (ignoring condition names), where the
first rule carries an app-root/url-rewrite marker, neither is a reset rule and
their names differ, `MergeRules` absorbs the first rule into the second; a
subsequent `UnmergeRule` on the merger's name then deletes the merger's rule
and restores only the mergee's saved original.  The round trip therefore ends
with the policy holding exactly the first (mergee) rule — verbatim, with its
original actions, name and ordinal — while the second rule is gone, rather
than restoring the exact original two rules as claimed. -/
theorem c1_merge_unmerge (rc : ResourceConfig) (pol : Policy) (r1 r2 : Rule)
    (hpol : rc.Policies = [pol])
    (hctl : pol.Controls.any (fun cType => cType = "forwarding") = true)
    (hrules : pol.Rules = [r1, r2])
    (hm1 : hasMarker r1.Name = true)
    (hrs1 : strEndsWith r1.Name "-reset" = false)
    (hrs2 : strEndsWith r2.Name "-reset" = false)
    (hclen : r1.Conditions.length = r2.Conditions.length)
    (hcmatch : condMatchCount r1.Conditions r2.Conditions = r1.Conditions.length)
    (huniq : (goMergeActions r1.Name r1.Actions r2.Actions).2 ≠ [])
    (hname : r1.Name ≠ r2.Name) :
    ∃ rc1 mrm1 rc2,
      rc.MergeRules [] = some (rc1, mrm1) ∧
      rc1.Policies = [{ pol with Rules :=
        [{ r2 with Actions := (goMergeActions r1.Name r1.Actions r2.Actions).1 }] }] ∧
      rc1.UnmergeRule r2.Name mrm1 = some (true, rc2, []) ∧
      rc2.Policies = [{ pol with Rules := [r1] }] := by
  obtain ⟨na, ma, hga⟩ : ∃ na ma, goMergeActions r1.Name r1.Actions r2.Actions = (na, ma) :=
    ⟨_, _, rfl⟩
  rw [hga] at huniq
  have hml : ma ≠ [] := by simpa using huniq
  have hmerge := mergeRules_two rc pol r1 r2 na ma hpol hctl hrules hm1 hrs1 hrs2
    hclen hcmatch hga hml hname
  have hP1 : (rc.SetPolicy { pol with Rules := [{ r2 with Actions := na }] }).Policies =
      [{ pol with Rules := [{ r2 with Actions := na }] }] := by
    simp [ResourceConfig.SetPolicy, hpol, setPolicyList]
  have hun := unmergeRule_merger
    (rc.SetPolicy { pol with Rules := [{ r2 with Actions := na }] })
    { pol with Rules := [{ r2 with Actions := na }] }
    { r2 with Actions := na } r1 ma hP1 hctl rfl hrs1 hml hname
  refine ⟨rc.SetPolicy { pol with Rules := [{ r2 with Actions := na }] },
    [(rc.GetName, [(r2.Name, ⟨r2.Name, [r1.Name], ma, { r2 with Actions := na }⟩),
                   (r1.Name, ⟨r1.Name, [r2.Name], [], r1⟩)])],
    ((rc.SetPolicy { pol with Rules := [{ r2 with Actions := na }] }).SetPolicy
      { { pol with Rules := [{ r2 with Actions := na }] } with Rules := [r1] }).SetPolicy
      { { pol with Rules := [{ r2 with Actions := na }] } with Rules := [r1] },
    hmerge, ?_, ?_, ?_⟩
  · rw [hga]
    exact hP1
  · exact hun
  · simp [ResourceConfig.SetPolicy, hpol, setPolicyList]

/-- C1, witness: `c1_merge_unmerge` at the concrete sample config: merging the
app-root rule `exR1` into `exR2` and unmerging at `exR2`'s name leaves the
policy with exactly `[exR1]`. -/
theorem c1_witness :
    ∃ rc1 mrm1 rc2,
      exRC.MergeRules [] = some (rc1, mrm1) ∧
      rc1.Policies = [{ exPolicy with Rules :=
        [{ exR2 with Actions := (goMergeActions exR1.Name exR1.Actions exR2.Actions).1 }] }] ∧
      rc1.UnmergeRule exR2.Name mrm1 = some (true, rc2, []) ∧
      rc2.Policies = [{ exPolicy with Rules := [exR1] }] :=
  c1_merge_unmerge exRC exPolicy exR1 exR2 (by decide) (by decide) (by decide) (by decide)
    (by decide) (by decide) (by decide) (by decide) (by decide) (by decide)

/-- C3, counterexample: `MergeRules` deletes the mergee without reassigning
ordinals.  On the sample policy (ordinals 0 and 1, rule 0 merged into rule 1)
the surviving rule keeps ordinal 1, which is not the contiguous `[0]` the
claim demands for one remaining rule. -/
theorem c3_counterexample :
    (exRC.MergeRules []).map (fun p => p.1.Policies.map (fun q => q.Rules.map Rule.Ordinal)) =
      some [[1]] ∧ [1] ≠ List.range 1 := by
  constructor <;> decide

/-- C3, amended: `RemoveRules` (with a nonempty offset list) reassigns the
remaining rules' ordinals to the contiguous range `0..N-1`; the merge pass
itself does not reassign ordinals (see the counterexample), contiguity is
re-established only at rule-removal time. -/
theorem c3_removeRules_ordinals :
    ∀ (pol : Policy) (ruleOffsets : List Nat), ruleOffsets ≠ [] →
      (pol.RemoveRules ruleOffsets).1.Rules.map Rule.Ordinal =
        List.range (pol.RemoveRules ruleOffsets).1.Rules.length := by
  intro pol ruleOffsets h
  simp only [Policy.RemoveRules, if_neg h]
  rw [reassign_map_ordinal]
  have hlen : ∀ (rs : List Rule) (n : Nat), (reassignOrdinalsFrom n rs).length = rs.length := by
    intro rs
    induction rs with
    | nil => intro n; rfl
    | cons r rs ih => intro n; simp [reassignOrdinalsFrom, ih]
  rw [hlen, List.range_eq_range']

/-- C3, witness: removal of offset 0 from the two-rule sample policy. -/
theorem c3_witness :
    (([0] : List Nat) ≠ []) ∧
    (exPolicy.RemoveRules [0]).1.Rules.map Rule.Ordinal =
      List.range (exPolicy.RemoveRules [0]).1.Rules.length :=
  ⟨by decide, c3_removeRules_ordinals exPolicy [0] (by decide)⟩

/-- C2, code bug: `copyConfig` allocates fresh rule objects but then
`copy(rc.Policies[i].Rules, cfg.Policies[i].Rules)` overwrites the fresh
pointers with the source pointers, so after `updateOldConfig` the snapshot's
policies hold the *same* rule objects as the live map (pointer 0 here), and a
write through the live rule pointer changes what the snapshot dereferences. -/
theorem c2_copyConfig_shares_rules :
    ((HP.updateOldConfig exHeap exHResources).1.oldRsMap.map
        (fun kv => kv.2.Policies.map HP.HPolicy.Rules) = [[[0]]] ∧
      exHResources.rsMap.map (fun kv => kv.2.Policies.map HP.HPolicy.Rules) = [[[0]]]) ∧
    HP.viewRules (((HP.updateOldConfig exHeap exHResources).2).write 0 exR2Mut) [0] = [exR2Mut] ∧
    HP.viewRules ((HP.updateOldConfig exHeap exHResources).2) [0] = [exR2] := by
  refine ⟨⟨?_, ?_⟩, ?_, ?_⟩ <;> decide

/-- C9, counterexample: the policy returned by `FindPolicy` shares its rule
objects with the stored policy, so mutating a rule through the returned
pointer (here: writing ordinal 7 through the first rule pointer) changes what
`rc.Policies` dereferences — before any `SetPolicy` call. -/
theorem c9_counterexample :
    HP.FindPolicy exHRC "forwarding" = some exHPolicy ∧
    HP.viewRules (exHeap.write (exHPolicy.Rules.getD 0 0) exR2Mut)
        ((exHRC.Policies.getD 0 default).Rules) ≠
      HP.viewRules exHeap ((exHRC.Policies.getD 0 default).Rules) := by
  constructor <;> decide

/-- C9, amended: `FindPolicy` returns (a copy of) the first policy whose
`Controls` contains the control type — the copy shares the stored policy's
rule pointers — and `nil` when none matches; replacing the copy's own fields
reaches `rc` only through `SetPolicy`, which deposits the policy into
`rc.Policies`. -/
theorem c9_findPolicy :
    (∀ (rc : HP.HResourceConfig) (controlType : String) (p : HP.HPolicy),
        HP.FindPolicy rc controlType = some p →
        ∃ pre post, rc.Policies = pre ++ p :: post ∧
          (∀ q ∈ pre, q.Controls.any (fun cType => cType = controlType) = false) ∧
          p.Controls.any (fun cType => cType = controlType) = true) ∧
    (∀ (rc : HP.HResourceConfig) (controlType : String),
        HP.FindPolicy rc controlType = none →
        ∀ q ∈ rc.Policies, q.Controls.any (fun cType => cType = controlType) = false) ∧
    (∀ (rc : ResourceConfig) (policy : Policy),
        ∃ pre post, (rc.SetPolicy policy).Policies = pre ++ policy :: post) := by
  refine ⟨?_, ?_, ?_⟩
  · intro rc controlType p h
    exact find?_eq_some_split _ rc.Policies p h
  · intro rc controlType h q hq
    cases hb : q.Controls.any (fun cType => cType = controlType)
    · rfl
    · exact absurd hb (List.find?_eq_none.mp h q hq)
  · intro rc policy
    exact setPolicyList_mem rc.Policies policy

/-- C4: starting from a Profiles list sorted by (partition, name) with no
duplicate key (`Pairwise profLtB`), any sequence of `AddOrUpdateProfile` calls
keeps the list sorted and duplicate-free; and a call whose profile is already
present with identical context returns false and leaves the virtual
untouched. -/
theorem c4_addOrUpdateProfile :
    (∀ (v : Virtual) (profs : List ProfileRef),
        v.Profiles.Pairwise (fun a b => profLtB a b = true) →
        ((profs.foldl (fun vb p => (vb.AddOrUpdateProfile p).1) v).Profiles).Pairwise
          (fun a b => profLtB a b = true)) ∧
    (∀ (v : Virtual) (prof : ProfileRef),
        v.Profiles.Pairwise (fun a b => profLtB a b = true) →
        (∃ q ∈ v.Profiles, q.Partition = prof.Partition ∧ q.Name = prof.Name ∧
          q.Context = prof.Context) →
        v.AddOrUpdateProfile prof = (v, false)) := by
  constructor
  · intro v profs
    induction profs generalizing v with
    | nil =>
      intro h
      exact h
    | cons p rest ih =>
      intro h
      exact ih _ (addOrUpdateProfile_sorted v p h)
  · exact addOrUpdateProfile_idem

/-- C4, witness: a two-call sequence from the empty profile list, and the
idempotent re-add of an already-present profile. -/
theorem c4_witness :
    (([exProf2, exProf1].foldl (fun vb p => (vb.AddOrUpdateProfile p).1)
        exVirtual).Profiles).Pairwise (fun a b => profLtB a b = true) ∧
    ({ exVirtual with Profiles := [exProf1] } : Virtual).AddOrUpdateProfile exProf1 =
      ({ exVirtual with Profiles := [exProf1] }, false) :=
  ⟨c4_addOrUpdateProfile.1 exVirtual [exProf2, exProf1] (by simp [exVirtual]),
   c4_addOrUpdateProfile.2 { exVirtual with Profiles := [exProf1] } exProf1
     (by simp) ⟨exProf1, by simp, rfl, rfl, rfl⟩⟩

/-- C5: whenever a previously recorded dependency set exists, the removed
list splits as Rule-kind dependencies followed by the rest (Rule removals are
prepended, others appended); and on the instance `old = {A, RuleDep:R1}`,
`new = {A, RuleDep:R2}` the result is `added = [R2]`, `removed = [R1]`. -/
theorem c5_updateDependencies :
    (∀ (objDeps : ObjectDependencyMap) (newKey : ObjectDependency)
        (newDeps : ObjectDependencies),
      ∃ rs os, (UpdateDependencies objDeps newKey newDeps).2.1 = rs ++ os ∧
        (∀ d ∈ rs, d.Kind = RuleDep) ∧ (∀ d ∈ os, d.Kind ≠ RuleDep)) ∧
    (UpdateDependencies [(exDepA, [(exDepA, 1), (exDepR1, 1)])] exDepA
        [(exDepA, 1), (exDepR2, 1)]).1 = [exDepR2] ∧
    (UpdateDependencies [(exDepA, [(exDepA, 1), (exDepR1, 1)])] exDepA
        [(exDepA, 1), (exDepR2, 1)]).2.1 = [exDepR1] := by
  refine ⟨?_, by decide, by decide⟩
  intro objDeps newKey newDeps
  unfold UpdateDependencies
  cases h : alookup objDeps newKey with
  | none => exact ⟨[], [], rfl, by simp, by simp⟩
  | some oldDeps =>
    simpa using removedFold_split newDeps oldDeps [] [] (by simp) (by simp)

/-- C5, witness: the split decomposition at the concrete dependency update. -/
theorem c5_witness :
    ∃ rs os,
      (UpdateDependencies [(exDepA, [(exDepA, 1), (exDepR1, 1)])] exDepA
          [(exDepA, 1), (exDepR2, 1)]).2.1 = rs ++ os ∧
      (∀ d ∈ rs, d.Kind = RuleDep) ∧ (∀ d ∈ os, d.Kind ≠ RuleDep) :=
  c5_updateDependencies.1 [(exDepA, [(exDepA, 1), (exDepR1, 1)])] exDepA
    [(exDepA, 1), (exDepR2, 1)]

/-- C8: `FlattenNamespaces` of an empty map is nil; of a singleton map it is
that entry's data group, returned as stored; for two-plus namespaces whose
group names are outside `groupFlattenFuncMap`, the merge is keep-first by
record name (the default conflict function is `flattenConflictWarn`); and the
conflict function is selected by group name — on `https_redirect_dg` the two
conflicting path records concatenate to `/a|/b`, on an unknown name the first
datum `a` wins. -/
theorem c8_flattenNamespaces :
    (DataGroupNamespaceMap.FlattenNamespaces [] = none) ∧
    (∀ (ns : String) (dg : InternalDataGroup),
        DataGroupNamespaceMap.FlattenNamespaces [(ns, dg)] = some dg) ∧
    (∀ dgnm : DataGroupNamespaceMap,
        (∀ kv ∈ dgnm, alookup groupFlattenFuncMap kv.2.Name = none) →
        ∀ recName, alookup (flattenFold dgnm).2.2 recName =
          (recOccurrences dgnm recName).head?) ∧
    (DataGroupNamespaceMap.FlattenNamespaces [("ns1", exDgA), ("ns2", exDgB)] =
        some { Name := "unknown_dg", Partition := "test",
               Records := [{ Name := "x", Data := "a" }] }) ∧
    (DataGroupNamespaceMap.FlattenNamespaces [("ns1", exDgC), ("ns2", exDgD)] =
        some { Name := HttpsRedirectDgName, Partition := "test",
               Records := [{ Name := "x", Data := "/a|/b" }] }) := by
  refine ⟨rfl, fun ns dg => rfl, ?_, by decide, by decide⟩
  intro dgnm hall recName
  have h := flattenFold_keepFirst dgnm hall ("", "", []) recName
  simpa [flattenFold] using h

/-- C8, witness: the keep-first conjunct at the concrete two-namespace map
with an unknown group name. -/
theorem c8_witness :
    alookup (flattenFold [("ns1", exDgA), ("ns2", exDgB)]).2.2 "x" =
      (recOccurrences [("ns1", exDgA), ("ns2", exDgB)] "x").head? :=
  c8_flattenNamespaces.2.2.1 [("ns1", exDgA), ("ns2", exDgB)]
    (by
      intro kv hkv
      rcases List.mem_cons.mp hkv with rfl | hkv
      · rfl
      · rcases List.mem_cons.mp hkv with rfl | hkv
        · rfl
        · cases hkv)
    "x"

/-- C9, witness: `c9_findPolicy` applied to the concrete heap-level config. -/
theorem c9_witness :
    ∃ pre post, exHRC.Policies = pre ++ exHPolicy :: post ∧
      (∀ q ∈ pre, q.Controls.any (fun cType => cType = "forwarding") = false) ∧
      exHPolicy.Controls.any (fun cType => cType = "forwarding") = true :=
  c9_findPolicy.1 exHRC "forwarding" exHPolicy (by decide)

end CRM
